import Mathlib

/-!
Verification development for the world-orchestration core of the reviewed
server (`src/src/game/World.cpp`): session directory and admission queue
(`World::AddSession_`, `World::RemoveQueuedSession`, `World::RemoveSession`,
`World::GetQueuedSessionPos`), the shutdown state machine
(`World::ShutdownServ`, `World::_UpdateGameTime`, `World::ShutdownMsg`,
`World::ShutdownCancel`) and the per-tick interval-timer step of
`World::Update`.

Sessions are modelled as records carrying the attributes the core reads;
`sid` models pointer identity of a `WorldSession*` (two distinct heap
objects never compare equal), `accountId` models `GetAccountId()`.
Packets sent to clients and kick requests are modelled as an event trace.
Machine integers (`uint32`) are modelled as `Nat`; the only subtractions
performed (`--Sessions`, `--sessions`) are guarded in the source exactly
where they are guarded here, so no wrap-around arises on the modelled
domain.  `time_t` wall-clock values are modelled as `Nat` (monotone clock).
-/

namespace JingdianWorld

/-- `AccountTypes::SEC_PLAYER` (enum value 0): the plain-player tier. -/
def SEC_PLAYER : Nat := 0

/-- `AccountTypes::SEC_ADMINISTRATOR` (enum value 3). -/
def SEC_ADMINISTRATOR : Nat := 3

/-- One minute of seconds, the `MINUTE` constant of the shared headers. -/
def MINUTE : Nat := 60

/-- One hour of seconds, the `HOUR` constant of the shared headers. -/
def HOUR : Nat := 3600

/-- `ShutdownMask::SHUTDOWN_MASK_RESTART` (bit 1). -/
def SHUTDOWN_MASK_RESTART : Nat := 1

/-- `ShutdownMask::SHUTDOWN_MASK_IDLE` (bit 2). -/
def SHUTDOWN_MASK_IDLE : Nat := 2

/-- `ShutdownExitCode::SHUTDOWN_EXIT_CODE` (0), the default exit code. -/
def SHUTDOWN_EXIT_CODE : Nat := 0

/-- `ServerMessageType::SERVER_MSG_SHUTDOWN_TIME`. -/
def SERVER_MSG_SHUTDOWN_TIME : Nat := 1

/-- `ServerMessageType::SERVER_MSG_RESTART_TIME`. -/
def SERVER_MSG_RESTART_TIME : Nat := 2

/-- `ServerMessageType::SERVER_MSG_SHUTDOWN_CANCELLED`. -/
def SERVER_MSG_SHUTDOWN_CANCELLED : Nat := 4

/-- `ServerMessageType::SERVER_MSG_RESTART_CANCELLED`. -/
def SERVER_MSG_RESTART_CANCELLED : Nat := 5

/-- Modelled from the spec: one authenticated client connection
(`WorldSession`, whose class definition is not part of this repository
snapshot).  The spec's Session carries a stable account identity, a
security/privilege tier and a queued-flag; `playerLoading` models the
"mid-admission, still loading persistent state" condition that
`WorldSession::PlayerLoading()` reports; `sid` models the identity of the
underlying heap object (pointer equality). -/
structure WorldSession where
  sid : Nat
  accountId : Nat
  security : Nat
  playerLoading : Bool
  inQueue : Bool
deriving DecidableEq, Repr

/-- Observable effects of the core on its collaborators: kick requests
(`KickPlayer`), the `AUTH_OK` acknowledgment packet, the initial
`AUTH_WAIT_QUEUE` packet carrying a queue position, the
`SendAuthWaitQue(position)` position-update packet, and
`SendServerMessage` broadcasts (identified by their message type). -/
inductive Event where
  | kick (sid : Nat)
  | authOk (sid : Nat)
  | authWaitQueue (sid : Nat) (pos : Nat)
  | authWaitQue (sid : Nat) (pos : Nat)
  | serverMessage (msgid : Nat)
deriving DecidableEq, Repr

/-- The mutable state of `World` that the claims concern: the session map
`m_sessions` (a `std::map<uint32, WorldSession*>` keyed by account id,
modelled as an association list with unique keys), the FIFO admission
wait-queue `m_QueuedSessions` (a deque of session pointers, modelled by
their `sid`s), the capacity limit `m_playerLimit : int32`, and the
shutdown-controller fields. -/
structure World where
  m_sessions : List WorldSession
  m_QueuedSessions : List Nat
  m_playerLimit : Int
  m_stopEvent : Bool
  m_ShutdownMask : Nat
  m_ShutdownTimer : Nat
  m_ExitCode : Nat
  m_gameTime : Nat
  m_maxActiveSessionCount : Nat
  m_maxQueuedSessionCount : Nat
deriving DecidableEq, Repr

/-- The `World` constructor state (`World::World`): empty directory and
queue, `m_playerLimit = 0`, no pending shutdown. -/
def World.init : World :=
  { m_sessions := []
    m_QueuedSessions := []
    m_playerLimit := 0
    m_stopEvent := false
    m_ShutdownMask := 0
    m_ShutdownTimer := 0
    m_ExitCode := SHUTDOWN_EXIT_CODE
    m_gameTime := 0
    m_maxActiveSessionCount := 0
    m_maxQueuedSessionCount := 0 }

/-- `m_sessions.find(id)`: the directory lookup by account identity. -/
def World.findByAccount (w : World) (a : Nat) : Option WorldSession :=
  w.m_sessions.find? (fun t => t.accountId = a)

/-- The `sid`s (pointer identities) present in the session directory. -/
def sids (w : World) : List Nat := w.m_sessions.map (fun t => t.sid)

/-- The account identities present in the session directory. -/
def accIds (w : World) : List Nat := w.m_sessions.map (fun t => t.accountId)

/-- Modelled from the spec: `World::GetActiveAndQueuedSessionCount`
(declared in the absent `World.h`) — the number of sessions tracked by the
directory, active and queued alike. -/
def getActiveAndQueuedSessionCount (w : World) : Nat := w.m_sessions.length

/-- Modelled from the spec: `World::GetActiveSessionCount` (declared in
the absent `World.h`) — directory size minus wait-queue size, the same
expression `World::UpdateMaxSessionCounters` computes inline in the
source. -/
def getActiveSessionCount (w : World) : Nat :=
  w.m_sessions.length - w.m_QueuedSessions.length

/-- Modelled from the spec: `World::GetQueuedSessionCount` (declared in
the absent `World.h`) — the wait-queue size. -/
def getQueuedSessionCount (w : World) : Nat := w.m_QueuedSessions.length

/-- Modelled from the spec: `World::GetPlayerAmountLimit` (declared in the
absent `World.h`) — the configured capacity, with negative
(privilege-tier-encoding) limits reading as 0 = unlimited. -/
def getPlayerAmountLimit (w : World) : Nat := w.m_playerLimit.toNat

/-- `WorldSession::SetInQueue(b)` applied to the session object with
pointer identity `x`: updates the queued-flag of that object wherever the
directory holds it. -/
def setInQueueBySid (w : World) (x : Nat) (b : Bool) : World :=
  { w with m_sessions :=
      w.m_sessions.map (fun t => if t.sid = x then { t with inQueue := b } else t) }

/-- `World::UpdateMaxSessionCounters` (src line 2420): raises the
high-water marks for active and queued session counts. -/
def updateMaxSessionCounters (w : World) : World :=
  { w with
    m_maxActiveSessionCount :=
      max w.m_maxActiveSessionCount (w.m_sessions.length - w.m_QueuedSessions.length)
    m_maxQueuedSessionCount :=
      max w.m_maxQueuedSessionCount w.m_QueuedSessions.length }

/-- The inner loop of `World::GetQueuedSessionPos`: walk the queue with a
1-based running position, returning the position of `x` or 0 when the walk
falls off the end. -/
def queuePosFrom (x : Nat) : List Nat → Nat → Nat
  | [], _ => 0
  | y :: ys, p => if y = x then p else queuePosFrom x ys (p + 1)

/-- `World::GetQueuedSessionPos` (src lines 260-269): 1-based queue
position of a session, 0 when the session is not in the wait-queue. -/
def getQueuedSessionPos (w : World) (x : Nat) : Nat :=
  queuePosFrom x w.m_QueuedSessions 1

/-- The search-and-erase loop of `World::RemoveQueuedSession`: returns
`some (l, r)` when the queue is `l ++ x :: r` with `x` not in `l` (the
erased element, the elements before it, and the iterator suffix after
it), `none` when `x` is not queued. -/
def splitAtSid : List Nat → Nat → Option (List Nat × List Nat)
  | [], _ => none
  | y :: ys, x =>
    if y = x then some ([], ys)
    else
      match splitAtSid ys x with
      | some (l, r) => some (y :: l, r)
      | none => none

/-- The trailing position-update loop of `World::RemoveQueuedSession`
(src lines 331-332): send `SendAuthWaitQue(position)` to each remaining
queued session from the iterator on, with a running 1-based position. -/
def sendPositions : List Nat → Nat → List Event
  | [], _ => []
  | y :: ys, p => Event.authWaitQue y p :: sendPositions ys (p + 1)

/-- The promotion and re-announce tail of `World::RemoveQueuedSession`
(src lines 316-332): if capacity allows (`!m_playerLimit ||
(int32)sessions < m_playerLimit`) and the queue is non-empty, pop the
queue head, clear its queued-flag and signal it position 0, then resend
positions from the queue start; otherwise resend positions from the
iterator suffix `sfx` with starting position `pos`. -/
def promoteAndResend (w : World) (sessions : Nat) (sfx : List Nat) (pos : Nat)
    (found : Bool) : World × List Event × Bool :=
  match w.m_QueuedSessions with
  | [] => (w, sendPositions sfx pos, found)
  | pop :: rest =>
    if w.m_playerLimit = 0 ∨ (sessions : Int) < w.m_playerLimit then
      let w2 := setInQueueBySid w pop false
      ({ w2 with m_QueuedSessions := rest },
       Event.authWaitQue pop 0 :: sendPositions rest 1, found)
    else
      (w, sendPositions sfx pos, found)

/-- `World::RemoveQueuedSession` (src lines 287-335): erase the session
from the wait-queue if present (clearing its queued-flag), decrement the
precomputed active count when the session was not queued (the caller is
about to drop an active session), promote the queue head when capacity
allows, re-announce positions, and return whether the session had been
queued. -/
def removeQueuedSession (w : World) (x : Nat) : World × List Event × Bool :=
  let sessions := getActiveSessionCount w
  match splitAtSid w.m_QueuedSessions x with
  | some (l, r) =>
    let w1 := setInQueueBySid w x false
    promoteAndResend { w1 with m_QueuedSessions := l ++ r } sessions r
      (l.length + 1) true
  | none =>
    let sessions := if sessions ≠ 0 then sessions - 1 else sessions
    promoteAndResend w sessions [] 0 false

/-- `World::RemoveSession` (src lines 161-174): look the account up, and
if a session is present either refuse (`false`) while it is still loading
a player, or kick it; returns `true` when the caller may proceed. -/
def removeSession (w : World) (id : Nat) : List Event × Bool :=
  match w.findByAccount id with
  | some old =>
    if old.playerLoading then ([], false) else ([Event.kick old.sid], true)
  | none => ([], true)

/-- `m_sessions[key] = s`: `std::map` insert-or-assign keyed by
`s.accountId` — replaces the existing entry for the account or appends a
new one. -/
def mapInsert : List WorldSession → WorldSession → List WorldSession
  | [], s => [s]
  | t :: ts, s =>
    if t.accountId = s.accountId then s :: ts else t :: mapInsert ts s

/-- The admission decision tail of `World::AddSession_` (src lines
215-258): store the session in the directory, compute the session count
(decremented by one unless a queued session of the same account was just
replaced), and either append to the wait-queue with an `AUTH_WAIT_QUEUE`
acknowledgment carrying the 1-based position, or send `AUTH_OK`. -/
def finishAdd (w : World) (s : WorldSession) (decrease : Bool)
    (evs : List Event) : World × List Event :=
  let w2 := { w with m_sessions := mapInsert w.m_sessions s }
  let sessionsCnt := getActiveAndQueuedSessionCount w2
  let pLimit := getPlayerAmountLimit w2
  let sessionsCnt := if decrease then sessionsCnt - 1 else sessionsCnt
  if pLimit > 0 ∧ sessionsCnt ≥ pLimit ∧ s.security = SEC_PLAYER then
    let w3 := setInQueueBySid w2 s.sid true
    let w3 := { w3 with m_QueuedSessions := w3.m_QueuedSessions ++ [s.sid] }
    let p := getQueuedSessionPos w3 s.sid
    (updateMaxSessionCounters w3, evs ++ [Event.authWaitQueue s.sid p])
  else
    (updateMaxSessionCounters w2, evs ++ [Event.authOk s.sid])

/-- `World::AddSession_` (src lines 181-258): admit a newly authenticated
session.  A same-account session still loading causes outright refusal
(the new session is kicked and dropped, nothing is inserted); otherwise
any old same-account session is kicked, removed from the wait-queue (the
removal deciding whether the count is decremented) and replaced in the
directory, and the capacity check admits or enqueues the newcomer. -/
def addSession_ (w : World) (s : WorldSession) : World × List Event :=
  let rs := removeSession w s.accountId
  if rs.2 = false then
    (w, rs.1 ++ [Event.kick s.sid])
  else
    match w.findByAccount s.accountId with
    | some old =>
      let rq := removeQueuedSession w old.sid
      finishAdd rq.1 s (!rq.2.2) (rs.1 ++ rq.2.1)
    | none => finishAdd w s true rs.1

/-- The dead-session branch of `World::UpdateSessions` (src lines
2173-2187) for the session of account `a`: deregister it from the
wait-queue machinery, then erase it from the directory. -/
def eraseByAccount : List WorldSession → Nat → List WorldSession
  | [], _ => []
  | t :: ts, a => if t.accountId = a then ts else t :: eraseByAccount ts a

/-- One no-longer-alive session (account `a`) being dropped by
`World::UpdateSessions`: `RemoveQueuedSession(pSession)` followed by
`m_sessions.erase(itr)`. -/
def sessionExpire (w : World) (a : Nat) : World × List Event :=
  match w.findByAccount a with
  | some p =>
    let rq := removeQueuedSession w p.sid
    ({ rq.1 with m_sessions := eraseByAccount rq.1.m_sessions a }, rq.2.1)
  | none => (w, [])

/-- `World::KickAll` (src lines 1964-1971): clear the wait-queue and kick
every session; directory entries are only reaped on the next update. -/
def kickAll (w : World) : World × List Event :=
  ({ w with m_QueuedSessions := [] },
   w.m_sessions.map (fun t => Event.kick t.sid))

/-- `World::SetPlayerLimit` (src lines 2405-2418), capacity part only:
limits below `-SEC_ADMINISTRATOR` are clamped to it. -/
def setPlayerLimit (w : World) (limit : Int) : World :=
  { w with m_playerLimit := max limit (-(SEC_ADMINISTRATOR : Int)) }

/-- The warning-milestone disjunction of `World::ShutdownMsg` (src lines
2132-2137): the overlapping modulo checks exactly as written. -/
def shutdownMsgDue (t : Nat) : Prop :=
  (t < 5 * MINUTE ∧ t % 15 = 0) ∨
  (t < 15 * MINUTE ∧ t % MINUTE = 0) ∨
  (t < 30 * MINUTE ∧ t % (5 * MINUTE) = 0) ∨
  (t < 12 * HOUR ∧ t % HOUR = 0) ∨
  (12 * HOUR ≤ t ∧ t % (12 * HOUR) = 0)

instance (t : Nat) : Decidable (shutdownMsgDue t) := by
  unfold shutdownMsgDue; infer_instance

/-- `World::ShutdownMsg` (src lines 2125-2146): silent under the idle
mask; otherwise broadcast the restart/shutdown-time message when forced
(`show`) or when the remaining time sits on a milestone. -/
def shutdownMsg (w : World) (show_ : Bool) : List Event :=
  if w.m_ShutdownMask &&& SHUTDOWN_MASK_IDLE ≠ 0 then []
  else if show_ = true ∨ shutdownMsgDue w.m_ShutdownTimer then
    [Event.serverMessage
      (if w.m_ShutdownMask &&& SHUTDOWN_MASK_RESTART ≠ 0 then
         SERVER_MSG_RESTART_TIME
       else SERVER_MSG_SHUTDOWN_TIME)]
  else []

/-- `World::ShutdownServ` (src lines 2099-2122): ignored once firing;
otherwise record mask and exit code, then with zero delay either fire
immediately (non-idle mask, or empty server) or arm the minimal 1-second
timer, and with a positive delay arm the timer and force a warning. -/
def shutdownServ (w : World) (time_ : Nat) (options : Nat) (exitcode : Nat) :
    World × List Event :=
  if w.m_stopEvent then (w, [])
  else
    let w := { w with m_ShutdownMask := options, m_ExitCode := exitcode }
    if time_ = 0 then
      if options &&& SHUTDOWN_MASK_IDLE = 0 ∨
          getActiveAndQueuedSessionCount w = 0 then
        ({ w with m_stopEvent := true }, [])
      else
        ({ w with m_ShutdownTimer := 1 }, [])
    else
      let w := { w with m_ShutdownTimer := time_ }
      (w, shutdownMsg w true)

/-- `World::ShutdownCancel` (src lines 2149-2163): a no-op unless a
countdown is armed and the stop event not yet set; otherwise reset mask,
timer and exit code to defaults and broadcast the cancellation notice. -/
def shutdownCancel (w : World) : World × List Event :=
  if w.m_ShutdownTimer = 0 ∨ w.m_stopEvent then (w, [])
  else
    let msgid :=
      if w.m_ShutdownMask &&& SHUTDOWN_MASK_RESTART ≠ 0 then
        SERVER_MSG_RESTART_CANCELLED
      else SERVER_MSG_SHUTDOWN_CANCELLED
    ({ w with m_ShutdownMask := 0, m_ShutdownTimer := 0,
              m_ExitCode := SHUTDOWN_EXIT_CODE },
     [Event.serverMessage msgid])

/-- `World::_UpdateGameTime` (src lines 2070-2096): advance the game
clock to `thisTime` (the wall clock, assumed monotone), and while a
countdown is armed and time passed, either fire / re-arm the 1-second
idle poll when the countdown is overdue, or decrement it and emit the
milestone warning. -/
def updateGameTime (w : World) (thisTime : Nat) : World × List Event :=
  let elapsed := thisTime - w.m_gameTime
  let w := { w with m_gameTime := thisTime }
  if w.m_stopEvent = false ∧ w.m_ShutdownTimer ≠ 0 ∧ elapsed ≠ 0 then
    if w.m_ShutdownTimer ≤ elapsed then
      if w.m_ShutdownMask &&& SHUTDOWN_MASK_IDLE = 0 ∨
          getActiveAndQueuedSessionCount w = 0 then
        ({ w with m_stopEvent := true }, [])
      else
        ({ w with m_ShutdownTimer := 1 }, [])
    else
      let w := { w with m_ShutdownTimer := w.m_ShutdownTimer - elapsed }
      (w, shutdownMsg w false)
  else (w, [])

/-- Modelled from the spec: `IntervalTimer` (its class definition lives in
the absent shared `Timer.h`): a signed counter advanced toward the period
by each tick's elapsed time, clamped at zero if an update would leave it
negative; `SetCurrent` overwrites the counter. -/
structure IntervalTimer where
  interval : Int
  current : Int
deriving DecidableEq, Repr

/-- Modelled from the spec: `IntervalTimer::Update(diff)` — advance the
counter by the elapsed time, clamping a negative result to zero. -/
def IntervalTimer.timerUpdate (t : IntervalTimer) (diff : Int) : IntervalTimer :=
  let c := t.current + diff
  { t with current := if c < 0 then 0 else c }

/-- Modelled from the spec: `IntervalTimer::SetCurrent`. -/
def IntervalTimer.setCurrent (t : IntervalTimer) (c : Int) : IntervalTimer :=
  { t with current := c }

/-- The per-timer step of `World::Update` (src lines 1644-1650): advance
a timer whose counter is non-negative by the tick's elapsed milliseconds,
and clamp a negative counter to zero instead. -/
def tickTimer (t : IntervalTimer) (diff : Nat) : IntervalTimer :=
  if 0 ≤ t.current then t.timerUpdate diff else t.setCurrent 0

/-- The whole timer loop of `World::Update` (src lines 1644-1650). -/
def updateTimers (ts : List IntervalTimer) (diff : Nat) : List IntervalTimer :=
  ts.map (fun t => tickTimer t diff)

/-- Well-formedness of the session directory: account keys are unique
(`std::map`), session objects are distinct heap objects, the wait-queue
holds no duplicate pointers, and every queued pointer is tracked by the
directory. -/
structure WF (w : World) : Prop where
  accNodup : (accIds w).Nodup
  sidNodup : (sids w).Nodup
  qNodup : w.m_QueuedSessions.Nodup
  qSub : ∀ q ∈ w.m_QueuedSessions, q ∈ sids w

/-- The states reachable from the freshly constructed `World` by the
operations of the core: admission of a fresh session object, queue
release, session expiry, kick-all, capacity reconfiguration and the
shutdown-controller entry points. -/
inductive Reachable : World → Prop
  | init : Reachable World.init
  | setLimit (w : World) (limit : Int) :
      Reachable w → Reachable (setPlayerLimit w limit)
  | add (w : World) (s : WorldSession) :
      Reachable w → s.sid ∉ sids w → Reachable (addSession_ w s).1
  | removeQ (w : World) (x : Nat) :
      Reachable w → Reachable (removeQueuedSession w x).1
  | expire (w : World) (a : Nat) :
      Reachable w → Reachable (sessionExpire w a).1
  | kickA (w : World) : Reachable w → Reachable (kickAll w).1
  | shutdown (w : World) (t o e : Nat) :
      Reachable w → Reachable (shutdownServ w t o e).1
  | cancel (w : World) : Reachable w → Reachable (shutdownCancel w).1
  | gameTime (w : World) (t : Nat) :
      Reachable w → Reachable (updateGameTime w t).1

/-- Recognizes the position-0 "dequeued/admitted" signal sent to a
promoted session. -/
def isPromoSignal : Event → Bool
  | Event.authWaitQue _ 0 => true
  | _ => false

lemma queuePosFrom_not_mem (x : Nat) (q : List Nat) (h : x ∉ q) :
    ∀ p, queuePosFrom x q p = 0 := by
  induction q with
  | nil => intro p; rfl
  | cons y ys ih =>
    intro p
    simp only [List.mem_cons, not_or] at h
    have hy : ¬ y = x := fun e => h.1 e.symm
    simp only [queuePosFrom, if_neg hy]
    exact ih h.2 (p + 1)

lemma queuePosFrom_get (x : Nat) (q : List Nat) :
    ∀ (i p : Nat), q.Nodup → q[i]? = some x → queuePosFrom x q p = p + i := by
  induction q with
  | nil => intro i p _ h; simp at h
  | cons y ys ih =>
    intro i p hnd hget
    cases i with
    | zero =>
      simp only [List.getElem?_cons_zero, Option.some.injEq] at hget
      simp [queuePosFrom, hget]
    | succ j =>
      simp only [List.getElem?_cons_succ] at hget
      have hx : x ∈ ys := List.getElem?_mem hget
      have hy : ¬ y = x := by
        intro e; subst e; exact (List.nodup_cons.mp hnd).1 hx
      simp only [queuePosFrom, if_neg hy]
      rw [ih j (p + 1) (List.nodup_cons.mp hnd).2 hget]
      omega

lemma queuePosFrom_append (x : Nat) (l r : List Nat) (h : x ∉ l) :
    ∀ p, queuePosFrom x (l ++ r) p = queuePosFrom x r (p + l.length) := by
  induction l with
  | nil => intro p; simp
  | cons y ys ih =>
    intro p
    simp only [List.mem_cons, not_or] at h
    have hy : ¬ y = x := fun e => h.1 e.symm
    show queuePosFrom x (y :: (ys ++ r)) p = _
    simp only [queuePosFrom, if_neg hy]
    rw [ih h.2 (p + 1)]
    have he : p + 1 + ys.length = p + (y :: ys).length := by
      simp only [List.length_cons]; omega
    rw [he]

lemma sendPositions_mem {y p : Nat} (q : List Nat) :
    ∀ start, Event.authWaitQue y p ∈ sendPositions q start →
      ∃ i, q[i]? = some y ∧ p = start + i := by
  induction q with
  | nil => intro start h; simp [sendPositions] at h
  | cons z zs ih =>
    intro start h
    simp only [sendPositions, List.mem_cons] at h
    cases h with
    | inl h =>
      injection h with h1 h2
      exact ⟨0, by simp [h1], by omega⟩
    | inr h =>
      obtain ⟨i, hi, hp⟩ := ih (start + 1) h
      exact ⟨i + 1, by simpa using hi, by omega⟩

lemma sendPositions_no_promo (q : List Nat) :
    ∀ start, 1 ≤ start → (sendPositions q start).countP isPromoSignal = 0 := by
  induction q with
  | nil => intro start _; rfl
  | cons z zs ih =>
    intro start h
    simp only [sendPositions]
    rw [List.countP_cons]
    have hz : isPromoSignal (Event.authWaitQue z start) = false := by
      cases start with
      | zero => omega
      | succ n => rfl
    simp [hz, ih (start + 1) (by omega)]

lemma splitAtSid_some :
    ∀ (q : List Nat) (x : Nat) (l r : List Nat),
      splitAtSid q x = some (l, r) → q = l ++ x :: r ∧ x ∉ l
  | [], x, l, r, h => by simp [splitAtSid] at h
  | y :: ys, x, l, r, h => by
    by_cases hy : y = x
    · rw [splitAtSid, if_pos hy] at h
      injection h with h'
      injection h' with h1 h2
      subst h1; subst h2; subst hy
      exact ⟨rfl, List.not_mem_nil y⟩
    · rw [splitAtSid, if_neg hy] at h
      cases hsplit : splitAtSid ys x with
      | none => rw [hsplit] at h; exact absurd h (by simp)
      | some pr =>
        obtain ⟨l', r'⟩ := pr
        rw [hsplit] at h
        injection h with h'
        injection h' with h1 h2
        obtain ⟨hq, hx⟩ := splitAtSid_some ys x l' r' hsplit
        subst h1; subst h2
        refine ⟨by simp [hq], ?_⟩
        intro hm
        rcases List.mem_cons.mp hm with h | h
        · exact hy h.symm
        · exact hx h

lemma splitAtSid_none :
    ∀ (q : List Nat) (x : Nat), splitAtSid q x = none ↔ x ∉ q
  | [], x => by simp [splitAtSid]
  | y :: ys, x => by
    rw [splitAtSid]
    by_cases hy : y = x
    · simp [hy]
    · rw [if_neg hy]
      cases hsplit : splitAtSid ys x with
      | none =>
        have hx : x ∉ ys := (splitAtSid_none ys x).mp hsplit
        have hxy : ¬ x = y := fun h => hy h.symm
        simp [List.mem_cons, hx, hxy]
      | some pr =>
        obtain ⟨l', r'⟩ := pr
        have hx : x ∈ ys := by
          have h := splitAtSid_some ys x l' r' hsplit
          rw [h.1]
          exact List.mem_append_right _ (List.mem_cons_self x r')
        simp [List.mem_cons, hx]

lemma setInQueue_queue (w : World) (x : Nat) (b : Bool) :
    (setInQueueBySid w x b).m_QueuedSessions = w.m_QueuedSessions := rfl

lemma setInQueue_limit (w : World) (x : Nat) (b : Bool) :
    (setInQueueBySid w x b).m_playerLimit = w.m_playerLimit := rfl

lemma setInQueue_len (w : World) (x : Nat) (b : Bool) :
    (setInQueueBySid w x b).m_sessions.length = w.m_sessions.length := by
  simp [setInQueueBySid]

lemma sids_setInQueue (w : World) (x : Nat) (b : Bool) :
    sids (setInQueueBySid w x b) = sids w := by
  simp only [sids, setInQueueBySid, List.map_map]
  apply List.map_congr_left
  intro t _
  by_cases h : t.sid = x <;> simp [Function.comp, h]

lemma accIds_setInQueue (w : World) (x : Nat) (b : Bool) :
    accIds (setInQueueBySid w x b) = accIds w := by
  simp only [accIds, setInQueueBySid, List.map_map]
  apply List.map_congr_left
  intro t _
  by_cases h : t.sid = x <;> simp [Function.comp, h]

lemma find?_map_accPres (f : WorldSession → WorldSession)
    (hf : ∀ t, (f t).accountId = t.accountId) (a : Nat) :
    ∀ m : List WorldSession,
      (m.map f).find? (fun t => t.accountId = a) =
        (m.find? (fun t => t.accountId = a)).map f
  | [] => rfl
  | t :: ts => by
    by_cases h : t.accountId = a
    · rw [List.map_cons, List.find?_cons_of_pos _ (by simp [hf, h]),
        List.find?_cons_of_pos _ (by simpa using h)]
      rfl
    · rw [List.map_cons, List.find?_cons_of_neg _ (by simp [hf, h]),
        List.find?_cons_of_neg _ (by simpa using h)]
      exact find?_map_accPres f hf a ts

lemma findByAccount_setInQueue (w : World) (x : Nat) (b : Bool) (a : Nat) :
    (setInQueueBySid w x b).findByAccount a =
      (w.findByAccount a).map
        (fun t => if t.sid = x then { t with inQueue := b } else t) := by
  unfold setInQueueBySid World.findByAccount
  exact find?_map_accPres _
    (fun t => by by_cases h : t.sid = x <;> simp [h]) a w.m_sessions

lemma setInQueue_false_self (w : World) (x : Nat) :
    ∀ t ∈ (setInQueueBySid w x false).m_sessions, t.sid = x → t.inQueue = false := by
  intro t ht hx
  simp only [setInQueueBySid, List.mem_map] at ht
  obtain ⟨t0, _, ht0⟩ := ht
  by_cases h : t0.sid = x
  · rw [if_pos h] at ht0; rw [← ht0]
  · rw [if_neg h] at ht0; rw [← ht0] at hx; exact absurd hx h

lemma setInQueue_false_pres (w : World) (x y : Nat)
    (H : ∀ t ∈ w.m_sessions, t.sid = y → t.inQueue = false) :
    ∀ t ∈ (setInQueueBySid w x false).m_sessions, t.sid = y → t.inQueue = false := by
  intro t ht hy
  simp only [setInQueueBySid, List.mem_map] at ht
  obtain ⟨t0, ht0m, ht0⟩ := ht
  by_cases h : t0.sid = x
  · rw [if_pos h] at ht0; rw [← ht0]
  · rw [if_neg h] at ht0; rw [← ht0] at hy ⊢; exact H t0 ht0m hy

lemma mapInsert_length (m : List WorldSession) (s : WorldSession) :
    (mapInsert m s).length =
      if (m.find? (fun t => t.accountId = s.accountId)).isSome then m.length
      else m.length + 1 := by
  induction m with
  | nil => simp [mapInsert]
  | cons t ts ih =>
    by_cases h : t.accountId = s.accountId
    · simp [mapInsert, h, List.find?_cons_of_pos]
    · rw [mapInsert, if_neg h, List.length_cons,
        List.find?_cons_of_neg _ (by simpa using h), ih]
      split <;> simp

lemma accIds_mapInsert_sub (s : WorldSession) :
    ∀ (m : List WorldSession) (a : Nat),
      a ∈ (mapInsert m s).map (fun t => t.accountId) →
      a = s.accountId ∨ a ∈ m.map (fun t => t.accountId)
  | [], a, h => by
    simp only [mapInsert, List.map_cons, List.map_nil] at h
    exact Or.inl (by simpa using h)
  | t :: ts, a, h => by
    by_cases he : t.accountId = s.accountId
    · rw [mapInsert, if_pos he, List.map_cons] at h
      rcases List.mem_cons.mp h with h | h
      · exact Or.inl h
      · exact Or.inr (by rw [List.map_cons]; exact List.mem_cons_of_mem _ h)
    · rw [mapInsert, if_neg he, List.map_cons] at h
      rcases List.mem_cons.mp h with h | h
      · exact Or.inr (by rw [List.map_cons, h]; exact List.mem_cons_self _ _)
      · rcases accIds_mapInsert_sub s ts a h with h | h
        · exact Or.inl h
        · exact Or.inr (by rw [List.map_cons]; exact List.mem_cons_of_mem _ h)

lemma accIds_mapInsert_nodup (s : WorldSession) :
    ∀ m : List WorldSession, (m.map (fun t => t.accountId)).Nodup →
      ((mapInsert m s).map (fun t => t.accountId)).Nodup
  | [], _ => by simp [mapInsert]
  | t :: ts, h => by
    rw [List.map_cons, List.nodup_cons] at h
    by_cases he : t.accountId = s.accountId
    · rw [mapInsert, if_pos he, List.map_cons, List.nodup_cons]
      exact ⟨he ▸ h.1, h.2⟩
    · rw [mapInsert, if_neg he, List.map_cons, List.nodup_cons]
      refine ⟨?_, accIds_mapInsert_nodup s ts h.2⟩
      intro hmem
      rcases accIds_mapInsert_sub s ts t.accountId hmem with h' | h'
      · exact he h'
      · exact h.1 h'

lemma sids_mapInsert_sub (s : WorldSession) :
    ∀ (m : List WorldSession) (x : Nat),
      x ∈ (mapInsert m s).map (fun t => t.sid) →
      x = s.sid ∨ x ∈ m.map (fun t => t.sid)
  | [], x, h => by
    simp only [mapInsert, List.map_cons, List.map_nil] at h
    exact Or.inl (by simpa using h)
  | t :: ts, x, h => by
    by_cases he : t.accountId = s.accountId
    · rw [mapInsert, if_pos he, List.map_cons] at h
      rcases List.mem_cons.mp h with h | h
      · exact Or.inl h
      · exact Or.inr (by rw [List.map_cons]; exact List.mem_cons_of_mem _ h)
    · rw [mapInsert, if_neg he, List.map_cons] at h
      rcases List.mem_cons.mp h with h | h
      · exact Or.inr (by rw [List.map_cons, h]; exact List.mem_cons_self _ _)
      · rcases sids_mapInsert_sub s ts x h with h | h
        · exact Or.inl h
        · exact Or.inr (by rw [List.map_cons]; exact List.mem_cons_of_mem _ h)

lemma sids_mapInsert_nodup (s : WorldSession) :
    ∀ m : List WorldSession, s.sid ∉ m.map (fun t => t.sid) →
      (m.map (fun t => t.sid)).Nodup →
      ((mapInsert m s).map (fun t => t.sid)).Nodup
  | [], _, _ => by simp [mapInsert]
  | t :: ts, hf, h => by
    rw [List.map_cons, List.nodup_cons] at h
    rw [List.map_cons, List.mem_cons, not_or] at hf
    by_cases he : t.accountId = s.accountId
    · rw [mapInsert, if_pos he, List.map_cons, List.nodup_cons]
      exact ⟨hf.2, h.2⟩
    · rw [mapInsert, if_neg he, List.map_cons, List.nodup_cons]
      refine ⟨?_, sids_mapInsert_nodup s ts hf.2 h.2⟩
      intro hmem
      rcases sids_mapInsert_sub s ts t.sid hmem with h' | h'
      · exact hf.1 h'.symm
      · exact h.1 h'

lemma sids_mapInsert_keep_none (s : WorldSession) :
    ∀ (m : List WorldSession) (x : Nat),
      m.find? (fun t => t.accountId = s.accountId) = none →
      x ∈ m.map (fun t => t.sid) → x ∈ (mapInsert m s).map (fun t => t.sid)
  | [], x, _, h => by simp at h
  | t :: ts, x, hf, h => by
    have hne : ¬ t.accountId = s.accountId := by
      intro he
      rw [List.find?_cons_of_pos _ (by simpa using he)] at hf
      exact Option.noConfusion hf
    rw [List.find?_cons_of_neg _ (by simpa using hne)] at hf
    rw [mapInsert, if_neg hne, List.map_cons]
    rw [List.map_cons] at h
    rcases List.mem_cons.mp h with h | h
    · rw [h]; exact List.mem_cons_self _ _
    · exact List.mem_cons_of_mem _ (sids_mapInsert_keep_none s ts x hf h)

lemma sids_mapInsert_keep_some (s old : WorldSession) :
    ∀ (m : List WorldSession) (x : Nat),
      m.find? (fun t => t.accountId = s.accountId) = some old →
      x ∈ m.map (fun t => t.sid) → x ≠ old.sid →
      x ∈ (mapInsert m s).map (fun t => t.sid)
  | [], x, hf, _, _ => by simp at hf
  | t :: ts, x, hf, h, hx => by
    by_cases he : t.accountId = s.accountId
    · rw [List.find?_cons_of_pos _ (by simpa using he)] at hf
      have ht : t = old := Option.some.inj hf
      subst ht
      rw [mapInsert, if_pos he, List.map_cons]
      rw [List.map_cons] at h
      rcases List.mem_cons.mp h with h | h
      · exact absurd h hx
      · exact List.mem_cons_of_mem _ h
    · rw [List.find?_cons_of_neg _ (by simpa using he)] at hf
      rw [mapInsert, if_neg he, List.map_cons]
      rw [List.map_cons] at h
      rcases List.mem_cons.mp h with h | h
      · rw [h]; exact List.mem_cons_self _ _
      · exact List.mem_cons_of_mem _
          (sids_mapInsert_keep_some s old ts x hf h hx)

lemma old_sid_not_mem_mapInsert (s old : WorldSession) :
    ∀ m : List WorldSession, (m.map (fun t => t.sid)).Nodup →
      m.find? (fun t => t.accountId = s.accountId) = some old →
      old.sid ≠ s.sid → old.sid ∉ (mapInsert m s).map (fun t => t.sid)
  | [], _, hf, _ => by simp at hf
  | t :: ts, h, hf, hs => by
    rw [List.map_cons, List.nodup_cons] at h
    by_cases he : t.accountId = s.accountId
    · rw [List.find?_cons_of_pos _ (by simpa using he)] at hf
      have ht : t = old := Option.some.inj hf
      subst ht
      rw [mapInsert, if_pos he, List.map_cons]
      intro hm
      rcases List.mem_cons.mp hm with h' | h'
      · exact hs h'
      · exact h.1 h'
    · rw [List.find?_cons_of_neg _ (by simpa using he)] at hf
      rw [mapInsert, if_neg he, List.map_cons]
      intro hm
      rcases List.mem_cons.mp hm with h' | h'
      · have hmem : old.sid ∈ ts.map (fun u => u.sid) :=
          List.mem_map_of_mem _ (List.mem_of_find?_eq_some hf)
        rw [h'] at hmem
        exact h.1 hmem
      · exact old_sid_not_mem_mapInsert s old ts h.2 hf hs h'

/-- The object-level patch `SetInQueue` performs on one session object. -/
def sessPatch (x : Nat) (b : Bool) (t : WorldSession) : WorldSession :=
  if t.sid = x then { t with inQueue := b } else t

lemma setInQueue_sessions (w : World) (x : Nat) (b : Bool) :
    (setInQueueBySid w x b).m_sessions = w.m_sessions.map (sessPatch x b) := rfl

lemma sessPatch_fields (x : Nat) (b : Bool) (t : WorldSession) :
    (sessPatch x b t).sid = t.sid ∧ (sessPatch x b t).accountId = t.accountId ∧
    (sessPatch x b t).security = t.security ∧
    (sessPatch x b t).playerLoading = t.playerLoading := by
  unfold sessPatch
  split <;> exact ⟨rfl, rfl, rfl, rfl⟩

lemma map_sid_of_fieldPres {f : WorldSession → WorldSession}
    (hf : ∀ t, (f t).sid = t.sid) (m : List WorldSession) :
    (m.map f).map (fun t => t.sid) = m.map (fun t => t.sid) := by
  rw [List.map_map]
  exact List.map_congr_left (fun t _ => by simp [Function.comp, hf t])

lemma map_acc_of_fieldPres {f : WorldSession → WorldSession}
    (hf : ∀ t, (f t).accountId = t.accountId) (m : List WorldSession) :
    (m.map f).map (fun t => t.accountId) = m.map (fun t => t.accountId) := by
  rw [List.map_map]
  exact List.map_congr_left (fun t _ => by simp [Function.comp, hf t])

/-- Structural description of the promotion tail: the directory is
rewritten by a field-preserving object patch, the capacity limit is
untouched, the queue is unchanged or loses its head, and the `found` flag
is passed through. -/
lemma promoteAndResend_spec (w : World) (sessions : Nat) (sfx : List Nat)
    (pos : Nat) (found : Bool) :
    ∃ f : WorldSession → WorldSession,
      (∀ t, (f t).sid = t.sid ∧ (f t).accountId = t.accountId ∧
            (f t).security = t.security ∧ (f t).playerLoading = t.playerLoading) ∧
      (promoteAndResend w sessions sfx pos found).1.m_sessions =
        w.m_sessions.map f ∧
      (promoteAndResend w sessions sfx pos found).1.m_playerLimit =
        w.m_playerLimit ∧
      ((promoteAndResend w sessions sfx pos found).1.m_QueuedSessions =
         w.m_QueuedSessions ∨
       (promoteAndResend w sessions sfx pos found).1.m_QueuedSessions =
         w.m_QueuedSessions.tail) ∧
      (promoteAndResend w sessions sfx pos found).2.2 = found := by
  unfold promoteAndResend
  split
  · exact ⟨id, fun t => ⟨rfl, rfl, rfl, rfl⟩, by rw [List.map_id], rfl,
      Or.inl rfl, rfl⟩
  · rename_i pop rest hq
    split
    · refine ⟨sessPatch pop false, sessPatch_fields pop false,
        setInQueue_sessions w pop false, rfl, Or.inr ?_, rfl⟩
      rw [hq, List.tail_cons]
    · exact ⟨id, fun t => ⟨rfl, rfl, rfl, rfl⟩, by rw [List.map_id], rfl,
        Or.inl rfl, rfl⟩

/-- Structural description of `RemoveQueuedSession`: the directory is
rewritten by a field-preserving object patch, the capacity limit is
untouched, the final queue is the original with the session erased
(possibly also with the promoted head popped), and the returned flag says
whether the session was queued. -/
lemma removeQueuedSession_spec (w : World) (x : Nat) :
    ∃ f : WorldSession → WorldSession,
      (∀ t, (f t).sid = t.sid ∧ (f t).accountId = t.accountId ∧
            (f t).security = t.security ∧ (f t).playerLoading = t.playerLoading) ∧
      (removeQueuedSession w x).1.m_sessions = w.m_sessions.map f ∧
      (removeQueuedSession w x).1.m_playerLimit = w.m_playerLimit ∧
      ((removeQueuedSession w x).1.m_QueuedSessions = w.m_QueuedSessions.erase x ∨
       (removeQueuedSession w x).1.m_QueuedSessions =
         (w.m_QueuedSessions.erase x).tail) ∧
      ((removeQueuedSession w x).2.2 = true ↔ x ∈ w.m_QueuedSessions) := by
  unfold removeQueuedSession
  split
  · rename_i pr l r hsplit
    obtain ⟨hq, hxl⟩ := splitAtSid_some _ _ _ _ hsplit
    have hmem : x ∈ w.m_QueuedSessions := by
      rw [hq]; exact List.mem_append_right _ (List.mem_cons_self x r)
    have herase : w.m_QueuedSessions.erase x = l ++ r := by
      rw [hq, List.erase_append_right _ hxl, List.erase_cons_head]
    obtain ⟨f, hf, hs, hlim, hqu, hfound⟩ :=
      promoteAndResend_spec
        { setInQueueBySid w x false with m_QueuedSessions := l ++ r }
        (getActiveSessionCount w) r (l.length + 1) true
    refine ⟨f ∘ sessPatch x false, ?_, ?_, ?_, ?_, by rw [hfound]; simp [hmem]⟩
    · intro t
      obtain ⟨h1, h2, h3, h4⟩ := sessPatch_fields x false t
      obtain ⟨g1, g2, g3, g4⟩ := hf (sessPatch x false t)
      exact ⟨by rw [Function.comp_apply, g1, h1],
             by rw [Function.comp_apply, g2, h2],
             by rw [Function.comp_apply, g3, h3],
             by rw [Function.comp_apply, g4, h4]⟩
    · rw [hs]
      show (setInQueueBySid w x false).m_sessions.map f = _
      rw [setInQueue_sessions, List.map_map]
    · rw [hlim]; rfl
    · rw [herase]
      rcases hqu with h | h
      · exact Or.inl h
      · exact Or.inr h
  · rename_i hsplit
    have hx : x ∉ w.m_QueuedSessions := (splitAtSid_none _ _).mp hsplit
    have herase : w.m_QueuedSessions.erase x = w.m_QueuedSessions :=
      List.erase_of_not_mem hx
    obtain ⟨f, hf, hs, hlim, hqu, hfound⟩ :=
      promoteAndResend_spec w
        (if getActiveSessionCount w ≠ 0 then getActiveSessionCount w - 1
         else getActiveSessionCount w) [] 0 false
    refine ⟨f, hf, hs, hlim, ?_, by rw [hfound]; simp [hx]⟩
    rw [herase]
    exact hqu

lemma rq_limit (w : World) (x : Nat) :
    (removeQueuedSession w x).1.m_playerLimit = w.m_playerLimit :=
  (removeQueuedSession_spec w x).choose_spec.2.2.1

lemma rq_sids (w : World) (x : Nat) : sids (removeQueuedSession w x).1 = sids w := by
  obtain ⟨f, hf, hs, -, -, -⟩ := removeQueuedSession_spec w x
  unfold sids
  rw [hs]
  exact map_sid_of_fieldPres (fun t => (hf t).1) _

lemma rq_accIds (w : World) (x : Nat) :
    accIds (removeQueuedSession w x).1 = accIds w := by
  obtain ⟨f, hf, hs, -, -, -⟩ := removeQueuedSession_spec w x
  unfold accIds
  rw [hs]
  exact map_acc_of_fieldPres (fun t => (hf t).2.1) _

lemma rq_len (w : World) (x : Nat) :
    (removeQueuedSession w x).1.m_sessions.length = w.m_sessions.length := by
  obtain ⟨f, hf, hs, -, -, -⟩ := removeQueuedSession_spec w x
  rw [hs, List.length_map]

lemma rq_find (w : World) (x a : Nat) :
    ∃ f : WorldSession → WorldSession,
      (∀ t, (f t).sid = t.sid ∧ (f t).accountId = t.accountId ∧
            (f t).security = t.security ∧ (f t).playerLoading = t.playerLoading) ∧
      (removeQueuedSession w x).1.findByAccount a =
        (w.findByAccount a).map f := by
  obtain ⟨f, hf, hs, -, -, -⟩ := removeQueuedSession_spec w x
  refine ⟨f, hf, ?_⟩
  unfold World.findByAccount
  rw [hs]
  exact find?_map_accPres f (fun t => (hf t).2.1) a w.m_sessions

lemma rq_found (w : World) (x : Nat) :
    (removeQueuedSession w x).2.2 = true ↔ x ∈ w.m_QueuedSessions :=
  (removeQueuedSession_spec w x).choose_spec.2.2.2.2

lemma rq_queue_sub (w : World) (x : Nat) :
    ∀ q ∈ (removeQueuedSession w x).1.m_QueuedSessions, q ∈ w.m_QueuedSessions := by
  intro q hq
  obtain ⟨f, -, -, -, hqu, -⟩ := removeQueuedSession_spec w x
  rcases hqu with h | h
  · rw [h] at hq; exact List.mem_of_mem_erase hq
  · rw [h] at hq
    exact List.mem_of_mem_erase ((List.tail_sublist _).subset hq)

lemma rq_queue_nodup (w : World) (x : Nat) (h : w.m_QueuedSessions.Nodup) :
    (removeQueuedSession w x).1.m_QueuedSessions.Nodup := by
  obtain ⟨f, -, -, -, hqu, -⟩ := removeQueuedSession_spec w x
  rcases hqu with h' | h'
  · rw [h']; exact h.erase x
  · rw [h']; exact (h.erase x).sublist (List.tail_sublist _)

lemma rq_not_mem (w : World) (x : Nat) (h : w.m_QueuedSessions.Nodup) :
    x ∉ (removeQueuedSession w x).1.m_QueuedSessions := by
  obtain ⟨f, -, -, -, hqu, -⟩ := removeQueuedSession_spec w x
  have hne : x ∉ w.m_QueuedSessions.erase x := h.not_mem_erase
  rcases hqu with h' | h'
  · rw [h']; exact hne
  · rw [h']; exact fun hm => hne ((List.tail_sublist _).subset hm)

lemma WF_removeQueuedSession (w : World) (x : Nat) (h : WF w) :
    WF (removeQueuedSession w x).1 := by
  refine ⟨?_, ?_, rq_queue_nodup w x h.qNodup, ?_⟩
  · rw [rq_accIds]; exact h.accNodup
  · rw [rq_sids]; exact h.sidNodup
  · intro q hq
    rw [rq_sids]
    exact h.qSub q (rq_queue_sub w x q hq)

lemma mem_mapInsert_self (s : WorldSession) : ∀ m : List WorldSession, s ∈ mapInsert m s
  | [] => List.mem_cons_self s []
  | t :: ts => by
    by_cases he : t.accountId = s.accountId
    · rw [mapInsert, if_pos he]; exact List.mem_cons_self s ts
    · rw [mapInsert, if_neg he]
      exact List.mem_cons_of_mem _ (mem_mapInsert_self s ts)

lemma find?_acc_unique :
    ∀ (m : List WorldSession) (a : Nat) (p : WorldSession),
      (m.map (fun t => t.accountId)).Nodup →
      m.find? (fun t => t.accountId = a) = some p →
      ∀ t ∈ m, t.accountId = a → t = p
  | [], a, p, _, hf => by simp at hf
  | u :: ts, a, p, hnd, hf => by
    rw [List.map_cons, List.nodup_cons] at hnd
    intro t ht hta
    by_cases hu : u.accountId = a
    · rw [List.find?_cons_of_pos _ (by simpa using hu)] at hf
      have hup : u = p := Option.some.inj hf
      rcases List.mem_cons.mp ht with h | h
      · rw [h, hup]
      · exfalso
        apply hnd.1
        rw [hu, ← hta]
        exact List.mem_map_of_mem _ h
    · rw [List.find?_cons_of_neg _ (by simpa using hu)] at hf
      rcases List.mem_cons.mp ht with h | h
      · exact absurd (h ▸ hta) hu
      · exact find?_acc_unique ts a p hnd.2 hf t h hta

lemma eraseByAccount_sublist : ∀ (m : List WorldSession) (a : Nat),
    List.Sublist (eraseByAccount m a) m
  | [], _ => List.Sublist.refl []
  | t :: ts, a => by
    rw [eraseByAccount]
    by_cases he : t.accountId = a
    · rw [if_pos he]; exact List.sublist_cons_self t ts
    · rw [if_neg he]; exact (eraseByAccount_sublist ts a).cons₂ t

lemma sids_eraseByAccount_keep :
    ∀ (m : List WorldSession) (a x : Nat),
      x ∈ m.map (fun t => t.sid) →
      (∀ t ∈ m, t.accountId = a → t.sid ≠ x) →
      x ∈ (eraseByAccount m a).map (fun t => t.sid)
  | [], a, x, h, _ => by simp at h
  | t :: ts, a, x, h, hne => by
    rw [List.map_cons] at h
    rw [eraseByAccount]
    by_cases he : t.accountId = a
    · rw [if_pos he]
      rcases List.mem_cons.mp h with h | h
      · exact absurd h.symm (hne t (List.mem_cons_self t ts) he)
      · exact h
    · rw [if_neg he, List.map_cons]
      rcases List.mem_cons.mp h with h | h
      · rw [h]; exact List.mem_cons_self _ _
      · exact List.mem_cons_of_mem _
          (sids_eraseByAccount_keep ts a x h
            (fun u hu => hne u (List.mem_cons_of_mem t hu)))

lemma umsc_sessions (w : World) :
    (updateMaxSessionCounters w).m_sessions = w.m_sessions := rfl

lemma umsc_queue (w : World) :
    (updateMaxSessionCounters w).m_QueuedSessions = w.m_QueuedSessions := rfl

lemma finishAdd_spec (w : World) (s : WorldSession) (d : Bool) (evs : List Event) :
    ((finishAdd w s d evs).1.m_sessions = mapInsert w.m_sessions s ∧
     (finishAdd w s d evs).1.m_QueuedSessions = w.m_QueuedSessions) ∨
    ((finishAdd w s d evs).1.m_sessions =
       (mapInsert w.m_sessions s).map (sessPatch s.sid true) ∧
     (finishAdd w s d evs).1.m_QueuedSessions = w.m_QueuedSessions ++ [s.sid]) := by
  simp only [finishAdd]
  split_ifs <;>
    first
      | exact Or.inl ⟨rfl, rfl⟩
      | exact Or.inr ⟨rfl, rfl⟩

lemma WF_finishAdd (w : World) (s : WorldSession) (d : Bool) (evs : List Event)
    (h : WF w) (hfresh : s.sid ∉ sids w)
    (hold : ∀ old, w.findByAccount s.accountId = some old →
      old.sid ∉ w.m_QueuedSessions) :
    WF (finishAdd w s d evs).1 := by
  have haccN : ((mapInsert w.m_sessions s).map (fun t => t.accountId)).Nodup :=
    accIds_mapInsert_nodup s w.m_sessions h.accNodup
  have hsidN : ((mapInsert w.m_sessions s).map (fun t => t.sid)).Nodup :=
    sids_mapInsert_nodup s w.m_sessions hfresh h.sidNodup
  have hkeep : ∀ q ∈ w.m_QueuedSessions,
      q ∈ (mapInsert w.m_sessions s).map (fun t => t.sid) := by
    intro q hq
    cases hfind : w.findByAccount s.accountId with
    | none =>
      exact sids_mapInsert_keep_none s w.m_sessions q hfind (h.qSub q hq)
    | some old =>
      have hqo : q ≠ old.sid := by
        intro he; exact hold old hfind (he ▸ hq)
      exact sids_mapInsert_keep_some s old w.m_sessions q hfind (h.qSub q hq) hqo
  have hself : s.sid ∈ (mapInsert w.m_sessions s).map (fun t => t.sid) :=
    List.mem_map_of_mem _ (mem_mapInsert_self s w.m_sessions)
  rcases finishAdd_spec w s d evs with ⟨hs, hq⟩ | ⟨hs, hq⟩
  · refine ⟨?_, ?_, ?_, ?_⟩
    · show ((finishAdd w s d evs).1.m_sessions.map (fun t => t.accountId)).Nodup
      rw [hs]; exact haccN
    · show ((finishAdd w s d evs).1.m_sessions.map (fun t => t.sid)).Nodup
      rw [hs]; exact hsidN
    · rw [hq]; exact h.qNodup
    · intro q hqm
      rw [hq] at hqm
      show q ∈ (finishAdd w s d evs).1.m_sessions.map (fun t => t.sid)
      rw [hs]; exact hkeep q hqm
  · refine ⟨?_, ?_, ?_, ?_⟩
    · show ((finishAdd w s d evs).1.m_sessions.map (fun t => t.accountId)).Nodup
      rw [hs, map_acc_of_fieldPres (fun t => (sessPatch_fields s.sid true t).2.1)]
      exact haccN
    · show ((finishAdd w s d evs).1.m_sessions.map (fun t => t.sid)).Nodup
      rw [hs, map_sid_of_fieldPres (fun t => (sessPatch_fields s.sid true t).1)]
      exact hsidN
    · rw [hq, List.nodup_append]
      refine ⟨h.qNodup, List.nodup_singleton _, ?_⟩
      intro q hqm hq'
      have hqs : q = s.sid := by simpa using hq'
      subst hqs
      exact hfresh (h.qSub _ hqm)
    · intro q hqm
      rw [hq] at hqm
      show q ∈ (finishAdd w s d evs).1.m_sessions.map (fun t => t.sid)
      rw [hs, map_sid_of_fieldPres (fun t => (sessPatch_fields s.sid true t).1)]
      rcases List.mem_append.mp hqm with hqm | hqm
      · exact hkeep q hqm
      · have hqs : q = s.sid := by simpa using hqm
        rw [hqs]; exact hself

lemma WF_addSession_ (w : World) (s : WorldSession) (h : WF w)
    (hfresh : s.sid ∉ sids w) : WF (addSession_ w s).1 := by
  simp only [addSession_]
  split
  · exact h
  · cases hfind : w.findByAccount s.accountId with
    | some old =>
      have hwf1 : WF (removeQueuedSession w old.sid).1 :=
        WF_removeQueuedSession w old.sid h
      have hfresh1 : s.sid ∉ sids (removeQueuedSession w old.sid).1 := by
        rw [rq_sids]; exact hfresh
      refine WF_finishAdd _ s _ _ hwf1 hfresh1 ?_
      intro old' hfind'
      obtain ⟨f, hf, hmapf⟩ := rq_find w old.sid s.accountId
      rw [hmapf, hfind] at hfind'
      have hfo : f old = old' := Option.some.inj hfind'
      have hsid : old'.sid = old.sid := by rw [← hfo, (hf old).1]
      rw [hsid]
      exact rq_not_mem w old.sid h.qNodup
    | none =>
      refine WF_finishAdd w s true _ h hfresh ?_
      intro old' hfind'
      rw [hfind] at hfind'
      exact Option.noConfusion hfind'

lemma WF_sessionExpire (w : World) (a : Nat) (h : WF w) :
    WF (sessionExpire w a).1 := by
  simp only [sessionExpire]
  split
  · rename_i p hfind
    have hwf1 : WF (removeQueuedSession w p.sid).1 :=
      WF_removeQueuedSession w p.sid h
    have hps : ∀ t ∈ (removeQueuedSession w p.sid).1.m_sessions,
        t.accountId = a → t.sid = p.sid := by
      obtain ⟨f, hf, hs, -, -, -⟩ := removeQueuedSession_spec w p.sid
      intro t ht hta
      rw [hs, List.mem_map] at ht
      obtain ⟨t0, ht0, hft0⟩ := ht
      have hta0 : t0.accountId = a := by rw [← (hf t0).2.1, hft0, hta]
      have ht0p : t0 = p :=
        find?_acc_unique w.m_sessions a p h.accNodup hfind t0 ht0 hta0
      rw [← hft0, (hf t0).1, ht0p]
    refine ⟨?_, ?_, hwf1.qNodup, ?_⟩
    · exact hwf1.accNodup.sublist ((eraseByAccount_sublist _ a).map _)
    · exact hwf1.sidNodup.sublist ((eraseByAccount_sublist _ a).map _)
    · intro q hq
      have hq1 : q ∈ (removeQueuedSession w p.sid).1.m_QueuedSessions := hq
      have hqs : q ∈ sids (removeQueuedSession w p.sid).1 := hwf1.qSub q hq1
      have hqp : q ≠ p.sid := by
        intro he
        rw [he] at hq1
        by_cases hqm : p.sid ∈ w.m_QueuedSessions
        · exact rq_not_mem w p.sid h.qNodup hq1
        · exact hqm (rq_queue_sub w p.sid p.sid hq1)
      exact sids_eraseByAccount_keep (removeQueuedSession w p.sid).1.m_sessions a q
        hqs (fun t ht hta he => hqp (he ▸ hps t ht hta))
  · exact h

lemma WF_kickAll (w : World) (h : WF w) : WF (kickAll w).1 :=
  ⟨h.accNodup, h.sidNodup, List.nodup_nil, fun q hq => absurd hq (List.not_mem_nil q)⟩

lemma shutdownServ_dir (w : World) (t o e : Nat) :
    (shutdownServ w t o e).1.m_sessions = w.m_sessions ∧
    (shutdownServ w t o e).1.m_QueuedSessions = w.m_QueuedSessions := by
  simp only [shutdownServ]
  split_ifs <;> exact ⟨rfl, rfl⟩

lemma shutdownCancel_dir (w : World) :
    (shutdownCancel w).1.m_sessions = w.m_sessions ∧
    (shutdownCancel w).1.m_QueuedSessions = w.m_QueuedSessions := by
  simp only [shutdownCancel]
  split_ifs <;> exact ⟨rfl, rfl⟩

lemma updateGameTime_dir (w : World) (t : Nat) :
    (updateGameTime w t).1.m_sessions = w.m_sessions ∧
    (updateGameTime w t).1.m_QueuedSessions = w.m_QueuedSessions := by
  simp only [updateGameTime]
  split_ifs <;> exact ⟨rfl, rfl⟩

lemma WF_of_dir_eq {w w' : World} (h : WF w)
    (hs : w'.m_sessions = w.m_sessions)
    (hq : w'.m_QueuedSessions = w.m_QueuedSessions) : WF w' := by
  refine ⟨?_, ?_, ?_, ?_⟩
  · show (w'.m_sessions.map (fun t => t.accountId)).Nodup
    rw [hs]; exact h.accNodup
  · show (w'.m_sessions.map (fun t => t.sid)).Nodup
    rw [hs]; exact h.sidNodup
  · rw [hq]; exact h.qNodup
  · intro q hqm
    rw [hq] at hqm
    show q ∈ w'.m_sessions.map (fun t => t.sid)
    rw [hs]
    exact h.qSub q hqm

/-- Every reachable state of the core satisfies the directory
well-formedness invariant. -/
lemma reachable_WF : ∀ w : World, Reachable w → WF w := by
  intro w h
  induction h with
  | init =>
    exact ⟨List.nodup_nil, List.nodup_nil, List.nodup_nil,
      fun q hq => absurd hq (List.not_mem_nil q)⟩
  | setLimit w l _ ih => exact WF_of_dir_eq ih rfl rfl
  | add w s _ hfresh ih => exact WF_addSession_ w s ih hfresh
  | removeQ w x _ ih => exact WF_removeQueuedSession w x ih
  | expire w a _ ih => exact WF_sessionExpire w a ih
  | kickA w _ ih => exact WF_kickAll w ih
  | shutdown w t o e _ ih =>
    exact WF_of_dir_eq ih (shutdownServ_dir w t o e).1 (shutdownServ_dir w t o e).2
  | cancel w _ ih =>
    exact WF_of_dir_eq ih (shutdownCancel_dir w).1 (shutdownCancel_dir w).2
  | gameTime w t _ ih =>
    exact WF_of_dir_eq ih (updateGameTime_dir w t).1 (updateGameTime_dir w t).2

lemma gaqsc_eq (w : World) :
    getActiveAndQueuedSessionCount w = w.m_sessions.length := rfl

/-- Modelled from the spec: the milestone table of §4.3 exactly as the
claim words it — every 15 s under 5 minutes remaining, every minute under
15 minutes, every 5 minutes under 30 minutes, hourly under 12 hours, and
every 12 hours otherwise.  Compared below against the source's overlapping
modulo disjunction `shutdownMsgDue`. -/
def milestoneSchedule (t : Nat) : Bool :=
  if t < 5 * MINUTE then t % 15 == 0
  else if t < 15 * MINUTE then t % MINUTE == 0
  else if t < 30 * MINUTE then t % (5 * MINUTE) == 0
  else if t < 12 * HOUR then t % HOUR == 0
  else t % (12 * HOUR) == 0

lemma shutdownMsgDue_iff_milestone (t : Nat) :
    shutdownMsgDue t ↔ milestoneSchedule t = true := by
  unfold shutdownMsgDue milestoneSchedule MINUTE HOUR
  split_ifs <;> simp <;> omega

/-- A plain-player session object used in the concrete scenarios. -/
def sa : WorldSession :=
  { sid := 1, accountId := 101, security := SEC_PLAYER,
    playerLoading := false, inQueue := false }

/-- A second plain-player session object. -/
def sb : WorldSession :=
  { sid := 2, accountId := 102, security := SEC_PLAYER,
    playerLoading := false, inQueue := false }

/-- A third plain-player session object. -/
def sc : WorldSession :=
  { sid := 3, accountId := 103, security := SEC_PLAYER,
    playerLoading := false, inQueue := false }

/-- Scenario A start state: fresh world with capacity 2. -/
def w0 : World := setPlayerLimit World.init 2

/-- Scenario A end state: `a`, `b`, `c` admitted in order at capacity 2. -/
def wA : World :=
  (addSession_ (addSession_ (addSession_ w0 sa).1 sb).1 sc).1

/-- An unlimited-capacity world with three active sessions. -/
def w3sess : World :=
  (addSession_ (addSession_ (addSession_ World.init sa).1 sb).1 sc).1

/-- A world with one active session and a 301-second non-idle countdown. -/
def wTimer : World :=
  (shutdownServ (addSession_ World.init sa).1 301 0 2).1

/-- A world with one active session and an armed idle-mode countdown. -/
def wIdle : World :=
  (shutdownServ (addSession_ World.init sa).1 0 SHUTDOWN_MASK_IDLE 2).1

/-- C9: on every tick, the timer loop of `World::Update` advances each
IntervalTimer whose counter is non-negative by the elapsed milliseconds
and clamps a negative counter to zero, so after the loop no timer's
counter remains negative. -/
theorem c9_timers_clamped (ts : List IntervalTimer) (diff : Nat) :
    (∀ t' ∈ updateTimers ts diff, 0 ≤ t'.current) ∧
    (∀ t ∈ ts,
      (0 ≤ t.current → (tickTimer t diff).current = t.current + diff) ∧
      (t.current < 0 → (tickTimer t diff).current = 0)) := by
  constructor
  · intro t' ht'
    rw [updateTimers, List.mem_map] at ht'
    obtain ⟨t, -, rfl⟩ := ht'
    unfold tickTimer IntervalTimer.timerUpdate IntervalTimer.setCurrent
    by_cases h : (0 : Int) ≤ t.current
    · rw [if_pos h]
      simp only
      split_ifs with h2 <;> omega
    · rw [if_neg h]
  · intro t _
    constructor
    · intro h
      unfold tickTimer IntervalTimer.timerUpdate
      rw [if_pos h]
      simp only
      rw [if_neg (by omega)]
    · intro h
      unfold tickTimer
      rw [if_neg (by omega)]
      rfl

/-- Witness for C9 at a concrete pair of timers. -/
theorem c9_timers_clamped_witness :
    (0 : Int) ≤ (tickTimer ⟨10, 5⟩ 2).current ∧
    (tickTimer ⟨10, 5⟩ 2).current = 5 + 2 ∧
    (tickTimer ⟨10, -3⟩ 2).current = 0 := by
  refine ⟨?_, ?_, ?_⟩
  · exact (c9_timers_clamped [⟨10, 5⟩] 2).1 (tickTimer ⟨10, 5⟩ 2)
      (by simp [updateTimers])
  · exact ((c9_timers_clamped [⟨10, 5⟩] 2).2 ⟨10, 5⟩ (by simp)).1 (by decide)
  · exact ((c9_timers_clamped [⟨10, -3⟩] 2).2 ⟨10, -3⟩ (by simp)).2 (by decide)

/-- C6: once the stop event is set (Firing), further shutdown requests and
cancellations are exact no-ops, the countdown branch of the game-time tick
is skipped, and the stored exit code survives unchanged. -/
theorem c6_firing_is_terminal (w : World) (t o e tt : Nat)
    (h : w.m_stopEvent = true) :
    shutdownServ w t o e = (w, []) ∧
    shutdownCancel w = (w, []) ∧
    updateGameTime w tt = ({ w with m_gameTime := tt }, []) ∧
    (updateGameTime w tt).1.m_ExitCode = w.m_ExitCode ∧
    (updateGameTime w tt).1.m_stopEvent = true := by
  have h1 : shutdownServ w t o e = (w, []) := by
    simp [shutdownServ, h]
  have h2 : shutdownCancel w = (w, []) := by
    simp [shutdownCancel, h]
  have h3 : updateGameTime w tt = ({ w with m_gameTime := tt }, []) := by
    simp [updateGameTime, h]
  exact ⟨h1, h2, h3, by rw [h3], by rw [h3]; exact h⟩

/-- Witness for C6 at a concrete firing state. -/
theorem c6_firing_is_terminal_witness :
    shutdownServ { World.init with m_stopEvent := true } 5 1 3 =
      ({ World.init with m_stopEvent := true }, []) ∧
    shutdownCancel { World.init with m_stopEvent := true } =
      ({ World.init with m_stopEvent := true }, []) := by
  have h := c6_firing_is_terminal { World.init with m_stopEvent := true } 5 1 3 7 rfl
  exact ⟨h.1, h.2.1⟩

/-- C5: a zero-delay shutdown request fires at once unless the idle mask
is set with sessions still present, in which case the 1-second poll timer
is armed; an overdue countdown on a tick performs exactly the same
re-check.  Scenario C: idle-mask request with three sessions enters
Counting with the minimal timer. -/
theorem c5_zero_delay_idle_poll :
    (∀ (w : World) (opts ec : Nat), w.m_stopEvent = false →
      ((opts &&& SHUTDOWN_MASK_IDLE = 0 ∨ getActiveAndQueuedSessionCount w = 0 →
        shutdownServ w 0 opts ec =
          ({ w with m_ShutdownMask := opts, m_ExitCode := ec,
                    m_stopEvent := true }, [])) ∧
       (opts &&& SHUTDOWN_MASK_IDLE ≠ 0 → getActiveAndQueuedSessionCount w ≠ 0 →
        shutdownServ w 0 opts ec =
          ({ w with m_ShutdownMask := opts, m_ExitCode := ec,
                    m_ShutdownTimer := 1 }, [])))) ∧
    (∀ (w : World) (tt : Nat), w.m_stopEvent = false →
      tt - w.m_gameTime ≠ 0 → w.m_ShutdownTimer ≠ 0 →
      w.m_ShutdownTimer ≤ tt - w.m_gameTime →
      ((w.m_ShutdownMask &&& SHUTDOWN_MASK_IDLE = 0 ∨
          getActiveAndQueuedSessionCount w = 0 →
        updateGameTime w tt =
          ({ w with m_gameTime := tt, m_stopEvent := true }, [])) ∧
       (w.m_ShutdownMask &&& SHUTDOWN_MASK_IDLE ≠ 0 →
          getActiveAndQueuedSessionCount w ≠ 0 →
        updateGameTime w tt =
          ({ w with m_gameTime := tt, m_ShutdownTimer := 1 }, [])))) ∧
    (getActiveAndQueuedSessionCount w3sess = 3 ∧
     (shutdownServ w3sess 0 SHUTDOWN_MASK_IDLE 2).1.m_ShutdownTimer = 1 ∧
     (shutdownServ w3sess 0 SHUTDOWN_MASK_IDLE 2).1.m_stopEvent = false ∧
     (shutdownServ w3sess 0 SHUTDOWN_MASK_IDLE 2).1.m_ExitCode = 2) := by
  refine ⟨?_, ?_, by decide⟩
  · intro w opts ec hstop
    constructor
    · intro hc
      simp only [shutdownServ, gaqsc_eq]
      split_ifs <;> simp_all [gaqsc_eq]
    · intro hc1 hc2
      simp only [shutdownServ, gaqsc_eq]
      split_ifs <;> simp_all [gaqsc_eq]
  · intro w tt hstop helapsed htimer hle
    constructor
    · intro hc
      simp only [updateGameTime, gaqsc_eq]
      split_ifs <;> simp_all [gaqsc_eq]
    · intro hc1 hc2
      simp only [updateGameTime, gaqsc_eq]
      split_ifs <;> simp_all [gaqsc_eq]

/-- Witness for C5 at concrete states: direct firing with no sessions and
the idle poll with a session present. -/
theorem c5_zero_delay_idle_poll_witness :
    shutdownServ World.init 0 SHUTDOWN_MASK_IDLE 2 =
      ({ World.init with m_ShutdownMask := SHUTDOWN_MASK_IDLE, m_ExitCode := 2,
                         m_stopEvent := true }, []) ∧
    shutdownServ (addSession_ World.init sa).1 0 SHUTDOWN_MASK_IDLE 2 =
      ({ (addSession_ World.init sa).1 with
          m_ShutdownMask := SHUTDOWN_MASK_IDLE, m_ExitCode := 2,
          m_ShutdownTimer := 1 }, []) := by
  constructor
  · exact ((c5_zero_delay_idle_poll.1 World.init SHUTDOWN_MASK_IDLE 2 rfl).1
      (Or.inr (by decide)))
  · exact ((c5_zero_delay_idle_poll.1 (addSession_ World.init sa).1
      SHUTDOWN_MASK_IDLE 2 (by decide)).2 (by decide) (by decide))

/-- C4: a removal request for a session still loading its player returns
`false` without kicking it, and a new same-account connection arriving
during that load is kicked and dropped — not admitted, not queued, and the
directory is left untouched. -/
theorem c4_loading_blocks_removal_and_reconnect (w : World)
    (s old : WorldSession)
    (hfind : w.findByAccount s.accountId = some old)
    (hload : old.playerLoading = true) :
    removeSession w s.accountId = ([], false) ∧
    (addSession_ w s).1 = w ∧
    (addSession_ w s).2 = [Event.kick s.sid] := by
  have hrs : removeSession w s.accountId = ([], false) := by
    simp [removeSession, hfind, hload]
  refine ⟨hrs, ?_, ?_⟩ <;> simp [addSession_, hrs]

/-- Witness for C4: a loading session for account 101 blocks removal and
refuses the reconnect. -/
theorem c4_loading_blocks_removal_and_reconnect_witness :
    removeSession { World.init with
      m_sessions := [⟨5, 101, 0, true, false⟩] } 101 = ([], false) ∧
    (addSession_ { World.init with m_sessions := [⟨5, 101, 0, true, false⟩] }
      ⟨6, 101, 0, false, false⟩).1 =
      { World.init with m_sessions := [⟨5, 101, 0, true, false⟩] } ∧
    (addSession_ { World.init with m_sessions := [⟨5, 101, 0, true, false⟩] }
      ⟨6, 101, 0, false, false⟩).2 = [Event.kick 6] :=
  c4_loading_blocks_removal_and_reconnect
    { World.init with m_sessions := [⟨5, 101, 0, true, false⟩] }
    ⟨6, 101, 0, false, false⟩ ⟨5, 101, 0, true, false⟩ (by decide) rfl

/-- C10: `GetQueuedSessionPos` returns 0 for any session not in the
wait-queue — the same value a freshly promoted session is signalled with —
and the 1-based index for queued sessions; concretely, after scenario B's
promotion the promoted session is signalled position 0 and then also
reports position 0 because it is no longer queued. -/
theorem c10_queue_position_zero_ambiguity :
    (∀ (w : World) (x : Nat), x ∉ w.m_QueuedSessions →
      getQueuedSessionPos w x = 0) ∧
    (∀ (w : World) (x i : Nat), w.m_QueuedSessions.Nodup →
      w.m_QueuedSessions[i]? = some x → getQueuedSessionPos w x = i + 1) ∧
    ((sessionExpire wA 101).2 = [Event.authWaitQue 3 0] ∧
     getQueuedSessionPos (sessionExpire wA 101).1 3 = 0 ∧
     3 ∉ (sessionExpire wA 101).1.m_QueuedSessions ∧
     getQueuedSessionPos wA 3 = 1) := by
  refine ⟨?_, ?_, by decide⟩
  · intro w x h
    exact queuePosFrom_not_mem x _ h 1
  · intro w x i hnd hget
    rw [getQueuedSessionPos, queuePosFrom_get x _ i 1 hnd hget]
    omega

/-- Witness for C10 on a concrete queue. -/
theorem c10_queue_position_zero_ambiguity_witness :
    getQueuedSessionPos { World.init with m_QueuedSessions := [7, 8] } 9 = 0 ∧
    getQueuedSessionPos { World.init with m_QueuedSessions := [7, 8] } 8 = 2 := by
  constructor
  · exact c10_queue_position_zero_ambiguity.1
      { World.init with m_QueuedSessions := [7, 8] } 9 (by decide)
  · exact c10_queue_position_zero_ambiguity.2.1
      { World.init with m_QueuedSessions := [7, 8] } 8 1 (by decide) rfl

/-- C7: while the countdown is running with time remaining (non-idle
mask), the tick broadcasts exactly when the decremented remaining time
sits on the claim's milestone table, the source's overlapping modulo
disjunction agreeing with that table at every value; concretely 301→299
emits nothing and landing exactly on 300 broadcasts. -/
theorem c7_broadcast_milestones :
    (∀ t : Nat, shutdownMsgDue t ↔ milestoneSchedule t = true) ∧
    (∀ (w : World) (tt : Nat), w.m_stopEvent = false →
      w.m_ShutdownMask &&& SHUTDOWN_MASK_IDLE = 0 →
      tt - w.m_gameTime ≠ 0 → tt - w.m_gameTime < w.m_ShutdownTimer →
      ((updateGameTime w tt).2 ≠ [] ↔
        milestoneSchedule (w.m_ShutdownTimer - (tt - w.m_gameTime)) = true) ∧
      (updateGameTime w tt).1.m_ShutdownTimer =
        w.m_ShutdownTimer - (tt - w.m_gameTime)) ∧
    ((updateGameTime wTimer 2).1.m_ShutdownTimer = 299 ∧
     (updateGameTime wTimer 2).2 = [] ∧
     (updateGameTime wTimer 1).1.m_ShutdownTimer = 300 ∧
     (updateGameTime wTimer 1).2 = [Event.serverMessage SERVER_MSG_SHUTDOWN_TIME]) := by
  refine ⟨shutdownMsgDue_iff_milestone, ?_, by decide⟩
  intro w tt hstop hidle helapsed hlt
  have hne : ¬ w.m_ShutdownTimer ≤ tt - w.m_gameTime := by omega
  have htimer : w.m_ShutdownTimer ≠ 0 := by omega
  simp only [updateGameTime]
  rw [if_pos ⟨hstop, htimer, helapsed⟩, if_neg hne]
  constructor
  · simp only [shutdownMsg]
    rw [if_neg (by simpa using hidle)]
    by_cases hdue : shutdownMsgDue (w.m_ShutdownTimer - (tt - w.m_gameTime))
    · rw [if_pos (Or.inr hdue)]
      simp [(shutdownMsgDue_iff_milestone _).mp hdue]
    · rw [if_neg (by
        intro hor
        rcases hor with h | h
        · exact Bool.noConfusion h
        · exact hdue h)]
      simp only [ne_eq, not_true_eq_false, false_iff]
      intro hm
      exact hdue ((shutdownMsgDue_iff_milestone _).mpr hm)
  · rfl

/-- Witness for C7 at a concrete counting state. -/
theorem c7_broadcast_milestones_witness :
    ((updateGameTime wTimer 2).2 ≠ [] ↔ milestoneSchedule 299 = true) ∧
    (shutdownMsgDue 300 ↔ milestoneSchedule 300 = true) := by
  constructor
  · exact ((c7_broadcast_milestones.2.1 wTimer 2 (by decide) (by decide)
      (by decide) (by decide)).1)
  · exact c7_broadcast_milestones.1 300

/-- C8 counterexample: an idle-mode shutdown is armed (Counting) and
cancelled; the claim says the cancellation notice is only sent for
non-idle shutdowns, yet the code broadcasts it here too. -/
theorem c8_counterexample :
    wIdle.m_ShutdownMask &&& SHUTDOWN_MASK_IDLE ≠ 0 ∧
    wIdle.m_ShutdownTimer ≠ 0 ∧
    wIdle.m_stopEvent = false ∧
    (shutdownCancel wIdle).2 =
      [Event.serverMessage SERVER_MSG_SHUTDOWN_CANCELLED] := by
  decide

/-- C8 as amended: idle-mode countdowns are silent (no warning broadcast
from `ShutdownMsg`, hence none from the tick), and `ShutdownCancel` is
only effective while a countdown is armed and not yet firing — resetting
mask, timer and exit code to defaults — but it broadcasts its
cancellation notice unconditionally, idle-mode included; cancelling while
Idle has no observable effect. -/
theorem c8_idle_silence_and_cancel (w : World) (tt : Nat) (show_ : Bool) :
    (w.m_ShutdownMask &&& SHUTDOWN_MASK_IDLE ≠ 0 → shutdownMsg w show_ = []) ∧
    (w.m_ShutdownMask &&& SHUTDOWN_MASK_IDLE ≠ 0 → (updateGameTime w tt).2 = []) ∧
    (w.m_ShutdownTimer ≠ 0 → w.m_stopEvent = false →
      shutdownCancel w =
        ({ w with m_ShutdownMask := 0, m_ShutdownTimer := 0,
                  m_ExitCode := SHUTDOWN_EXIT_CODE },
         [Event.serverMessage
            (if w.m_ShutdownMask &&& SHUTDOWN_MASK_RESTART ≠ 0 then
               SERVER_MSG_RESTART_CANCELLED
             else SERVER_MSG_SHUTDOWN_CANCELLED)])) ∧
    (w.m_ShutdownTimer = 0 → shutdownCancel w = (w, [])) := by
  have hmsg : ∀ (w' : World) (show' : Bool),
      w'.m_ShutdownMask &&& SHUTDOWN_MASK_IDLE ≠ 0 → shutdownMsg w' show' = [] := by
    intro w' show' hidle
    simp only [shutdownMsg]
    rw [if_pos hidle]
  refine ⟨hmsg w show_, ?_, ?_, ?_⟩
  · intro hidle
    simp only [updateGameTime]
    split_ifs with h1 h2 h3
    · rfl
    · rfl
    · exact hmsg _ false hidle
    · rfl
  · intro htimer hstop
    simp only [shutdownCancel]
    rw [if_neg (by simp [htimer, hstop])]
  · intro htimer
    simp only [shutdownCancel]
    rw [if_pos (Or.inl htimer)]

/-- Witness for C8 (amended) at concrete states. -/
theorem c8_idle_silence_and_cancel_witness :
    shutdownMsg wIdle true = [] ∧
    (updateGameTime wIdle 1).2 = [] ∧
    shutdownCancel World.init = (World.init, []) := by
  refine ⟨?_, ?_, ?_⟩
  · exact (c8_idle_silence_and_cancel wIdle 1 true).1 (by decide)
  · exact (c8_idle_silence_and_cancel wIdle 1 true).2.1 (by decide)
  · exact (c8_idle_silence_and_cancel World.init 1 true).2.2.2 rfl

/-- Following the claim's wording (for comparison with the code's
`decrease_session` logic): whether admitting `s` replaces a queued session
of the same account. -/
def replacesQueuedSameAccount (w : World) (s : WorldSession) : Bool :=
  match w.findByAccount s.accountId with
  | some old => decide (old.sid ∈ w.m_QueuedSessions)
  | none => false

/-- Following the claim's wording: the effective active-plus-queued count
— directory size with the candidate inserted, minus one for the candidate
itself unless a queued same-account session was replaced. -/
def admissionEffectiveCount (w : World) (s : WorldSession) : Nat :=
  let m := if (w.findByAccount s.accountId).isSome then w.m_sessions.length
           else w.m_sessions.length + 1
  if replacesQueuedSameAccount w s then m else m - 1

lemma finishAdd_events (w : World) (s : WorldSession) (d : Bool)
    (evs : List Event) : ∃ e, (finishAdd w s d evs).2 = evs ++ [e] := by
  simp only [finishAdd]
  split_ifs <;> exact ⟨_, rfl⟩

lemma finishAdd_ack_iff (w : World) (s : WorldSession) (d : Bool)
    (evs : List Event) :
    ((∃ p, (finishAdd w s d evs).2.getLast? =
        some (Event.authWaitQueue s.sid p)) ↔
      (getPlayerAmountLimit w > 0 ∧
       (if d = true then (mapInsert w.m_sessions s).length - 1
        else (mapInsert w.m_sessions s).length) ≥ getPlayerAmountLimit w ∧
       s.security = SEC_PLAYER)) ∧
    (¬(getPlayerAmountLimit w > 0 ∧
       (if d = true then (mapInsert w.m_sessions s).length - 1
        else (mapInsert w.m_sessions s).length) ≥ getPlayerAmountLimit w ∧
       s.security = SEC_PLAYER) →
      (finishAdd w s d evs).2.getLast? = some (Event.authOk s.sid)) := by
  cases d with
  | true =>
    have ht : ((true : Bool) = true) = True := by simp
    simp only [finishAdd, gaqsc_eq, getPlayerAmountLimit, ht, if_true]
    split_ifs with hg
    · exact ⟨⟨fun _ => hg, fun _ => ⟨_, List.getLast?_concat _⟩⟩,
        fun hng => absurd hg hng⟩
    · refine ⟨⟨?_, fun hgg => absurd hgg hg⟩, fun _ => ?_⟩
      · rintro ⟨p, hp⟩
        rw [List.getLast?_concat] at hp
        simp at hp
      · rw [List.getLast?_concat]
  | false =>
    have hfc : ((false : Bool) = true) = False := by simp
    simp only [finishAdd, gaqsc_eq, getPlayerAmountLimit, hfc, if_false]
    split_ifs with hg
    · exact ⟨⟨fun _ => hg, fun _ => ⟨_, List.getLast?_concat _⟩⟩,
        fun hng => absurd hg hng⟩
    · refine ⟨⟨?_, fun hgg => absurd hgg hg⟩, fun _ => ?_⟩
      · rintro ⟨p, hp⟩
        rw [List.getLast?_concat] at hp
        simp at hp
      · rw [List.getLast?_concat]

/-- C2: for a session that is not refused outright, `AddSession_` queues
it if and only if the capacity limit is positive, the effective
active-plus-queued count (candidate excluded, a replaced queued
same-account session not double-counted) is at least the limit, and the
session is a plain player; otherwise it is acknowledged as admitted.
Scenario A: capacity 2, admissions a, b, c in order give Admitted,
Admitted, Queued at position 1. -/
theorem c2_admission_gate :
    (∀ (w : World) (s : WorldSession),
      (removeSession w s.accountId).2 = true →
      (((∃ p, (addSession_ w s).2.getLast? =
          some (Event.authWaitQueue s.sid p)) ↔
        (getPlayerAmountLimit w > 0 ∧
         admissionEffectiveCount w s ≥ getPlayerAmountLimit w ∧
         s.security = SEC_PLAYER)) ∧
       (¬(getPlayerAmountLimit w > 0 ∧
          admissionEffectiveCount w s ≥ getPlayerAmountLimit w ∧
          s.security = SEC_PLAYER) →
        (addSession_ w s).2.getLast? = some (Event.authOk s.sid)))) ∧
    ((addSession_ w0 sa).2 = [Event.authOk 1] ∧
     (addSession_ (addSession_ w0 sa).1 sb).2 = [Event.authOk 2] ∧
     (addSession_ (addSession_ (addSession_ w0 sa).1 sb).1 sc).2 =
       [Event.authWaitQueue 3 1] ∧
     wA.m_QueuedSessions = [3]) := by
  refine ⟨?_, by decide⟩
  intro w s hrs
  cases hfind : w.findByAccount s.accountId with
  | none =>
    have hred : addSession_ w s = finishAdd w s true (removeSession w s.accountId).1 := by
      simp [addSession_, hrs, hfind]
    have hfind' : w.m_sessions.find? (fun t => t.accountId = s.accountId) = none :=
      hfind
    have hlen : (mapInsert w.m_sessions s).length = w.m_sessions.length + 1 := by
      rw [mapInsert_length, hfind']
      simp
    have heff : admissionEffectiveCount w s = w.m_sessions.length := by
      simp [admissionEffectiveCount, replacesQueuedSameAccount, hfind]
    obtain ⟨hiff, hneg⟩ := finishAdd_ack_iff w s true (removeSession w s.accountId).1
    have hcnt : (if (true : Bool) = true then (mapInsert w.m_sessions s).length - 1
        else (mapInsert w.m_sessions s).length) = admissionEffectiveCount w s := by
      rw [if_pos rfl, hlen, heff]
      omega
    rw [hcnt] at hiff hneg
    rw [hred]
    exact ⟨hiff, hneg⟩
  | some old =>
    have hred : addSession_ w s =
        finishAdd (removeQueuedSession w old.sid).1 s
          (!(removeQueuedSession w old.sid).2.2)
          ((removeSession w s.accountId).1 ++ (removeQueuedSession w old.sid).2.1) := by
      simp [addSession_, hrs, hfind]
    obtain ⟨f, hf, hmapf⟩ := rq_find w old.sid s.accountId
    have hfind1 : (removeQueuedSession w old.sid).1.m_sessions.find?
        (fun t => t.accountId = s.accountId) = some (f old) := by
      have h1 : (removeQueuedSession w old.sid).1.findByAccount s.accountId =
          some (f old) := by
        rw [hmapf, hfind]
        rfl
      exact h1
    have hlen : (mapInsert (removeQueuedSession w old.sid).1.m_sessions s).length =
        w.m_sessions.length := by
      rw [mapInsert_length, hfind1]
      simp [rq_len]
    have hlim : getPlayerAmountLimit (removeQueuedSession w old.sid).1 =
        getPlayerAmountLimit w := by
      unfold getPlayerAmountLimit
      rw [rq_limit]
    obtain ⟨hiff, hneg⟩ := finishAdd_ack_iff (removeQueuedSession w old.sid).1 s
      (!(removeQueuedSession w old.sid).2.2)
      ((removeSession w s.accountId).1 ++ (removeQueuedSession w old.sid).2.1)
    by_cases hq : old.sid ∈ w.m_QueuedSessions
    · have hdec : (removeQueuedSession w old.sid).2.2 = true :=
        (rq_found w old.sid).mpr hq
      have hcnt : (if (!(removeQueuedSession w old.sid).2.2) = true then
          (mapInsert (removeQueuedSession w old.sid).1.m_sessions s).length - 1
          else (mapInsert (removeQueuedSession w old.sid).1.m_sessions s).length) =
          admissionEffectiveCount w s := by
        rw [hdec]
        simp [hlen, admissionEffectiveCount, replacesQueuedSameAccount, hfind, hq]
      rw [hcnt, hlim] at hiff hneg
      rw [hred]
      exact ⟨hiff, hneg⟩
    · have hdec : (removeQueuedSession w old.sid).2.2 = false := by
        cases hb : (removeQueuedSession w old.sid).2.2 with
        | false => rfl
        | true => exact absurd ((rq_found w old.sid).mp hb) hq
      have hcnt : (if (!(removeQueuedSession w old.sid).2.2) = true then
          (mapInsert (removeQueuedSession w old.sid).1.m_sessions s).length - 1
          else (mapInsert (removeQueuedSession w old.sid).1.m_sessions s).length) =
          admissionEffectiveCount w s := by
        rw [hdec]
        simp [hlen, admissionEffectiveCount, replacesQueuedSameAccount, hfind, hq]
      rw [hcnt, hlim] at hiff hneg
      rw [hred]
      exact ⟨hiff, hneg⟩

/-- Witness for C2: the first admission at capacity 2 is acknowledged
admitted, the third is queued. -/
theorem c2_admission_gate_witness :
    (addSession_ w0 sa).2.getLast? = some (Event.authOk sa.sid) ∧
    (∃ p, (addSession_ (addSession_ (addSession_ w0 sa).1 sb).1 sc).2.getLast? =
      some (Event.authWaitQueue sc.sid p)) := by
  constructor
  · exact (c2_admission_gate.1 w0 sa rfl).2 (by decide)
  · exact ((c2_admission_gate.1 (addSession_ (addSession_ w0 sa).1 sb).1 sc
      (by decide)).1).mpr (by decide)

lemma promoteAndResend_nil (w : World) (sessions : Nat) (sfx : List Nat)
    (pos : Nat) (found : Bool) (hq : w.m_QueuedSessions = []) :
    promoteAndResend w sessions sfx pos found = (w, sendPositions sfx pos, found) := by
  unfold promoteAndResend
  split
  · rfl
  · rename_i pop' rest' h
    rw [hq] at h
    exact List.noConfusion h

lemma promoteAndResend_cons_pos (w : World) (sessions : Nat) (sfx : List Nat)
    (pos : Nat) (found : Bool) (pop : Nat) (rest : List Nat)
    (hq : w.m_QueuedSessions = pop :: rest)
    (hcap : w.m_playerLimit = 0 ∨ (sessions : Int) < w.m_playerLimit) :
    promoteAndResend w sessions sfx pos found =
      ({ setInQueueBySid w pop false with m_QueuedSessions := rest },
       Event.authWaitQue pop 0 :: sendPositions rest 1, found) := by
  unfold promoteAndResend
  split
  · rename_i h
    rw [hq] at h
    exact List.noConfusion h
  · rename_i pop' rest' h
    rw [hq] at h
    injection h with h1 h2
    subst h1; subst h2
    rw [if_pos hcap]

lemma promoteAndResend_cons_neg (w : World) (sessions : Nat) (sfx : List Nat)
    (pos : Nat) (found : Bool) (pop : Nat) (rest : List Nat)
    (hq : w.m_QueuedSessions = pop :: rest)
    (hcap : ¬(w.m_playerLimit = 0 ∨ (sessions : Int) < w.m_playerLimit)) :
    promoteAndResend w sessions sfx pos found = (w, sendPositions sfx pos, found) := by
  unfold promoteAndResend
  split
  · rename_i h
    rw [hq] at h
  · rename_i pop' rest' h
    rw [hq] at h
    injection h with h1 h2
    subst h1; subst h2
    rw [if_neg hcap]

lemma removeQueuedSession_found (w : World) (x : Nat) (l r : List Nat)
    (hsplit : splitAtSid w.m_QueuedSessions x = some (l, r)) :
    removeQueuedSession w x =
      promoteAndResend
        { setInQueueBySid w x false with m_QueuedSessions := l ++ r }
        (getActiveSessionCount w) r (l.length + 1) true := by
  unfold removeQueuedSession
  split
  · rename_i pr l' r' h
    rw [hsplit] at h
    injection h with h'
    injection h' with h1 h2
    subst h1; subst h2
    rfl
  · rename_i h
    rw [hsplit] at h
    exact Option.noConfusion h

lemma removeQueuedSession_notfound (w : World) (x : Nat)
    (hsplit : splitAtSid w.m_QueuedSessions x = none) :
    removeQueuedSession w x =
      promoteAndResend w
        (if getActiveSessionCount w ≠ 0 then getActiveSessionCount w - 1
         else getActiveSessionCount w) [] 0 false := by
  unfold removeQueuedSession
  split
  · rename_i pr l' r' h
    rw [hsplit] at h
    exact Option.noConfusion h
  · rfl

/-- Following the claim's wording: the release leaves capacity free when
there is no limit, or when the active count — the released session not
counted if it was active rather than queued — is below the limit. -/
def releaseFreesCapacity (w : World) (x : Nat) : Prop :=
  w.m_playerLimit = 0 ∨
    (((if x ∈ w.m_QueuedSessions then getActiveSessionCount w
       else getActiveSessionCount w - 1) : Nat) : Int) < w.m_playerLimit

instance (w : World) (x : Nat) : Decidable (releaseFreesCapacity w x) := by
  unfold releaseFreesCapacity
  infer_instance

lemma sendPositions_countP (q : List Nat) :
    ∀ start, 1 ≤ start → (sendPositions q start).countP isPromoSignal = 0 :=
  sendPositions_no_promo q

lemma promoteAndResend_inQueue_false (w : World) (sessions : Nat)
    (sfx : List Nat) (pos : Nat) (found : Bool) (y : Nat)
    (H : ∀ t ∈ w.m_sessions, t.sid = y → t.inQueue = false) :
    ∀ t ∈ (promoteAndResend w sessions sfx pos found).1.m_sessions,
      t.sid = y → t.inQueue = false := by
  unfold promoteAndResend
  split
  · exact H
  · rename_i pop rest h
    split_ifs with hcap
    · exact setInQueue_false_pres w pop y H
    · exact H

/-- Queued sessions removed by `RemoveQueuedSession` get their queued-flag
cleared in every directory copy. -/
lemma rq_inQueue_false (w : World) (x : Nat) (hq : x ∈ w.m_QueuedSessions) :
    ∀ t ∈ (removeQueuedSession w x).1.m_sessions, t.sid = x → t.inQueue = false := by
  cases hsplit : splitAtSid w.m_QueuedSessions x with
  | none => exact absurd hq (fun hm => ((splitAtSid_none _ _).mp hsplit) hm)
  | some pr =>
    obtain ⟨l, r⟩ := pr
    rw [removeQueuedSession_found w x l r hsplit]
    exact promoteAndResend_inQueue_false _ _ _ _ _ x
      (setInQueue_false_self w x)

/-- The promotion behavior of `RemoveQueuedSession`: when the release
leaves capacity free and the remaining queue is non-empty, exactly the
queue head is promoted with a position-0 signal (and exactly one such
signal is sent); otherwise nobody is promoted. -/
lemma rq_promotion (w : World) (x : Nat) :
    ((releaseFreesCapacity w x ∧ w.m_QueuedSessions.erase x ≠ []) →
      ∃ hd tl, w.m_QueuedSessions.erase x = hd :: tl ∧
        (removeQueuedSession w x).1.m_QueuedSessions = tl ∧
        (removeQueuedSession w x).2.1.countP isPromoSignal = 1 ∧
        Event.authWaitQue hd 0 ∈ (removeQueuedSession w x).2.1) ∧
    (¬(releaseFreesCapacity w x ∧ w.m_QueuedSessions.erase x ≠ []) →
      (removeQueuedSession w x).1.m_QueuedSessions = w.m_QueuedSessions.erase x ∧
      (removeQueuedSession w x).2.1.countP isPromoSignal = 0) := by
  cases hsplit : splitAtSid w.m_QueuedSessions x with
  | some pr =>
    obtain ⟨l, r⟩ := pr
    obtain ⟨hq, hxl⟩ := splitAtSid_some _ _ _ _ hsplit
    have hmem : x ∈ w.m_QueuedSessions := by
      rw [hq]; exact List.mem_append_right _ (List.mem_cons_self x r)
    have herase : w.m_QueuedSessions.erase x = l ++ r := by
      rw [hq, List.erase_append_right _ hxl, List.erase_cons_head]
    have hfree : releaseFreesCapacity w x ↔
        (w.m_playerLimit = 0 ∨
          ((getActiveSessionCount w : Nat) : Int) < w.m_playerLimit) := by
      unfold releaseFreesCapacity
      rw [if_pos hmem]
    rw [removeQueuedSession_found w x l r hsplit, herase]
    cases hlr : l ++ r with
    | nil =>
      have hr : r = [] := (List.append_eq_nil.mp hlr).2
      constructor
      · rintro ⟨-, hne⟩
        exact absurd rfl hne
      · intro _
        rw [promoteAndResend_nil
          { setInQueueBySid w x false with m_QueuedSessions := ([] : List Nat) }
          (getActiveSessionCount w) r (l.length + 1) true rfl]
        refine ⟨rfl, ?_⟩
        rw [hr]
        rfl
    | cons hd tl =>
      by_cases hcap : w.m_playerLimit = 0 ∨
          ((getActiveSessionCount w : Nat) : Int) < w.m_playerLimit
      · rw [promoteAndResend_cons_pos
          { setInQueueBySid w x false with m_QueuedSessions := hd :: tl }
          (getActiveSessionCount w) r (l.length + 1) true hd tl rfl hcap]
        constructor
        · intro _
          refine ⟨hd, tl, rfl, rfl, ?_, List.mem_cons_self _ _⟩
          rw [List.countP_cons]
          simp [isPromoSignal, sendPositions_countP tl 1 (by omega)]
        · intro hno
          exact absurd ⟨hfree.mpr hcap, by simp⟩ hno
      · rw [promoteAndResend_cons_neg
          { setInQueueBySid w x false with m_QueuedSessions := hd :: tl }
          (getActiveSessionCount w) r (l.length + 1) true hd tl rfl hcap]
        constructor
        · rintro ⟨hf, -⟩
          exact absurd (hfree.mp hf) hcap
        · intro _
          exact ⟨rfl, sendPositions_countP r (l.length + 1) (by omega)⟩
  | none =>
    have hx : x ∉ w.m_QueuedSessions := (splitAtSid_none _ _).mp hsplit
    have herase : w.m_QueuedSessions.erase x = w.m_QueuedSessions :=
      List.erase_of_not_mem hx
    have hsess : (if getActiveSessionCount w ≠ 0 then getActiveSessionCount w - 1
        else getActiveSessionCount w) = getActiveSessionCount w - 1 := by
      split_ifs with h <;> omega
    have hfree : releaseFreesCapacity w x ↔
        (w.m_playerLimit = 0 ∨
          ((getActiveSessionCount w - 1 : Nat) : Int) < w.m_playerLimit) := by
      unfold releaseFreesCapacity
      rw [if_neg hx]
    rw [removeQueuedSession_notfound w x hsplit, herase]
    cases hlq : w.m_QueuedSessions with
    | nil =>
      constructor
      · rintro ⟨-, hne⟩
        exact absurd rfl hne
      · intro _
        rw [promoteAndResend_nil w _ [] 0 false hlq]
        exact ⟨hlq, rfl⟩
    | cons hd tl =>
      by_cases hcap : w.m_playerLimit = 0 ∨
          (((if getActiveSessionCount w ≠ 0 then getActiveSessionCount w - 1
             else getActiveSessionCount w : Nat)) : Int) < w.m_playerLimit
      · rw [promoteAndResend_cons_pos w _ [] 0 false hd tl hlq hcap]
        constructor
        · intro _
          refine ⟨hd, tl, rfl, rfl, ?_, List.mem_cons_self _ _⟩
          rw [List.countP_cons]
          simp [isPromoSignal, sendPositions_countP tl 1 (by omega)]
        · intro hno
          rw [hsess] at hcap
          exact absurd ⟨hfree.mpr hcap, by simp⟩ hno
      · rw [promoteAndResend_cons_neg w _ [] 0 false hd tl hlq hcap]
        constructor
        · rintro ⟨hf, -⟩
          rw [hsess] at hcap
          exact absurd (hfree.mp hf) hcap
        · intro _
          exact ⟨hlq, rfl⟩

/-- Every position-update packet sent by `RemoveQueuedSession` carries the
recipient's current 1-based position in the final queue. -/
lemma rq_positions (w : World) (x : Nat) (hWF : WF w) :
    ∀ (y p : Nat), Event.authWaitQue y p ∈ (removeQueuedSession w x).2.1 →
      1 ≤ p → getQueuedSessionPos (removeQueuedSession w x).1 y = p := by
  cases hsplit : splitAtSid w.m_QueuedSessions x with
  | some pr =>
    obtain ⟨l, r⟩ := pr
    obtain ⟨hq, hxl⟩ := splitAtSid_some _ _ _ _ hsplit
    have hnd : (l ++ x :: r).Nodup := hq ▸ hWF.qNodup
    have hndlr : (l ++ r).Nodup :=
      hnd.sublist ((List.sublist_cons_self x r).append_left l)
    rw [removeQueuedSession_found w x l r hsplit]
    cases hlr : l ++ r with
    | nil =>
      have hr : r = [] := (List.append_eq_nil.mp hlr).2
      rw [promoteAndResend_nil
        { setInQueueBySid w x false with m_QueuedSessions := ([] : List Nat) }
        (getActiveSessionCount w) r (l.length + 1) true rfl, hr]
      intro y p hmem
      simp [sendPositions] at hmem
    | cons hd tl =>
      have hndtl : tl.Nodup := by
        rw [hlr] at hndlr
        exact (List.nodup_cons.mp hndlr).2
      by_cases hcap : w.m_playerLimit = 0 ∨
          ((getActiveSessionCount w : Nat) : Int) < w.m_playerLimit
      · rw [promoteAndResend_cons_pos
          { setInQueueBySid w x false with m_QueuedSessions := hd :: tl }
          (getActiveSessionCount w) r (l.length + 1) true hd tl rfl hcap]
        intro y p hmem hp
        rcases List.mem_cons.mp hmem with h | h
        · injection h with h1 h2
          omega
        · obtain ⟨i, hi, hpi⟩ := sendPositions_mem tl 1 h
          show queuePosFrom y tl 1 = p
          rw [queuePosFrom_get y tl i 1 hndtl hi]
          omega
      · rw [promoteAndResend_cons_neg
          { setInQueueBySid w x false with m_QueuedSessions := hd :: tl }
          (getActiveSessionCount w) r (l.length + 1) true hd tl rfl hcap]
        intro y p hmem hp
        obtain ⟨i, hi, hpi⟩ := sendPositions_mem r (l.length + 1) hmem
        have hyr : y ∈ r := List.getElem?_mem hi
        have hyl : y ∉ l := by
          intro hym
          have hdisj := (List.nodup_append.mp hnd).2.2
          exact hdisj hym (List.mem_cons_of_mem x hyr)
        have hndr : r.Nodup :=
          (List.nodup_cons.mp (List.nodup_append.mp hnd).2.1).2
        show queuePosFrom y (hd :: tl) 1 = p
        rw [← hlr]
        rw [queuePosFrom_append y l r hyl 1,
          queuePosFrom_get y r i (1 + l.length) hndr hi]
        omega
  | none =>
    rw [removeQueuedSession_notfound w x hsplit]
    cases hlq : w.m_QueuedSessions with
    | nil =>
      rw [promoteAndResend_nil w _ [] 0 false hlq]
      intro y p hmem
      simp [sendPositions] at hmem
    | cons hd tl =>
      have hndtl : tl.Nodup := by
        have hn := hWF.qNodup
        rw [hlq] at hn
        exact (List.nodup_cons.mp hn).2
      by_cases hcap : w.m_playerLimit = 0 ∨
          (((if getActiveSessionCount w ≠ 0 then getActiveSessionCount w - 1
             else getActiveSessionCount w : Nat)) : Int) < w.m_playerLimit
      · rw [promoteAndResend_cons_pos w _ [] 0 false hd tl hlq hcap]
        intro y p hmem hp
        rcases List.mem_cons.mp hmem with h | h
        · injection h with h1 h2
          omega
        · obtain ⟨i, hi, hpi⟩ := sendPositions_mem tl 1 h
          show queuePosFrom y tl 1 = p
          rw [queuePosFrom_get y tl i 1 hndtl hi]
          omega
      · rw [promoteAndResend_cons_neg w _ [] 0 false hd tl hlq hcap]
        intro y p hmem
        simp [sendPositions] at hmem

lemma queuePosFrom_head (x : Nat) (r : List Nat) (p : Nat) :
    queuePosFrom x (x :: r) p = p := by
  simp [queuePosFrom]

lemma sendPositions_covers :
    ∀ (q : List Nat) (i start y : Nat), q[i]? = some y →
      Event.authWaitQue y (start + i) ∈ sendPositions q start
  | [], i, start, y, h => by simp at h
  | z :: zs, 0, start, y, h => by
    simp only [List.getElem?_cons_zero, Option.some.injEq] at h
    rw [h]
    exact List.mem_cons_self _ _
  | z :: zs, i + 1, start, y, h => by
    simp only [List.getElem?_cons_succ] at h
    have hrec := sendPositions_covers zs i (start + 1) y h
    have he : start + 1 + i = start + (i + 1) := by omega
    rw [he] at hrec
    exact List.mem_cons_of_mem _ hrec

/-- The re-announcement coverage of `RemoveQueuedSession`: after a
promotion every remaining queued session is re-sent its current 1-based
position, and after a plain removal every remaining queued session from
the removed position onward is re-sent its current 1-based position. -/
lemma rq_coverage (w : World) (x : Nat) (hWF : WF w) :
    ((releaseFreesCapacity w x ∧ w.m_QueuedSessions.erase x ≠ []) →
      ∀ y ∈ (removeQueuedSession w x).1.m_QueuedSessions,
        Event.authWaitQue y (getQueuedSessionPos (removeQueuedSession w x).1 y) ∈
          (removeQueuedSession w x).2.1) ∧
    (x ∈ w.m_QueuedSessions →
      ¬(releaseFreesCapacity w x ∧ w.m_QueuedSessions.erase x ≠ []) →
      ∀ y ∈ (removeQueuedSession w x).1.m_QueuedSessions,
        getQueuedSessionPos w x ≤
          getQueuedSessionPos (removeQueuedSession w x).1 y →
        Event.authWaitQue y (getQueuedSessionPos (removeQueuedSession w x).1 y) ∈
          (removeQueuedSession w x).2.1) := by
  cases hsplit : splitAtSid w.m_QueuedSessions x with
  | some pr =>
    obtain ⟨l, r⟩ := pr
    obtain ⟨hq, hxl⟩ := splitAtSid_some _ _ _ _ hsplit
    have hmem : x ∈ w.m_QueuedSessions := by
      rw [hq]; exact List.mem_append_right _ (List.mem_cons_self x r)
    have herase : w.m_QueuedSessions.erase x = l ++ r := by
      rw [hq, List.erase_append_right _ hxl, List.erase_cons_head]
    have hnd : (l ++ x :: r).Nodup := hq ▸ hWF.qNodup
    have hndlr : (l ++ r).Nodup :=
      hnd.sublist ((List.sublist_cons_self x r).append_left l)
    have hfree : releaseFreesCapacity w x ↔
        (w.m_playerLimit = 0 ∨
          ((getActiveSessionCount w : Nat) : Int) < w.m_playerLimit) := by
      unfold releaseFreesCapacity
      rw [if_pos hmem]
    have hOldPos : getQueuedSessionPos w x = l.length + 1 := by
      show queuePosFrom x w.m_QueuedSessions 1 = l.length + 1
      rw [hq, queuePosFrom_append x l (x :: r) hxl 1, queuePosFrom_head]
      omega
    rw [removeQueuedSession_found w x l r hsplit, herase]
    cases hlr : l ++ r with
    | nil =>
      constructor
      · rintro ⟨-, hne⟩
        exact absurd rfl hne
      · intro _ _ y hy
        rw [promoteAndResend_nil
          { setInQueueBySid w x false with m_QueuedSessions := ([] : List Nat) }
          (getActiveSessionCount w) r (l.length + 1) true rfl] at hy
        exact absurd hy (List.not_mem_nil y)
    | cons hd tl =>
      have hndtl : tl.Nodup := by
        rw [hlr] at hndlr
        exact (List.nodup_cons.mp hndlr).2
      by_cases hcap : w.m_playerLimit = 0 ∨
          ((getActiveSessionCount w : Nat) : Int) < w.m_playerLimit
      · rw [promoteAndResend_cons_pos
          { setInQueueBySid w x false with m_QueuedSessions := hd :: tl }
          (getActiveSessionCount w) r (l.length + 1) true hd tl rfl hcap]
        constructor
        · intro _ y hy
          obtain ⟨i, hi⟩ := List.mem_iff_getElem?.mp hy
          have hfp : getQueuedSessionPos
              { setInQueueBySid
                  { setInQueueBySid w x false with m_QueuedSessions := hd :: tl }
                  hd false with m_QueuedSessions := tl } y = 1 + i := by
            show queuePosFrom y tl 1 = 1 + i
            exact queuePosFrom_get y tl i 1 hndtl hi
          rw [hfp]
          exact List.mem_cons_of_mem _ (sendPositions_covers tl i 1 y hi)
        · intro _ hno
          exact absurd ⟨hfree.mpr hcap, by simp⟩ hno
      · rw [promoteAndResend_cons_neg
          { setInQueueBySid w x false with m_QueuedSessions := hd :: tl }
          (getActiveSessionCount w) r (l.length + 1) true hd tl rfl hcap]
        constructor
        · rintro ⟨hf, -⟩
          exact absurd (hfree.mp hf) hcap
        · intro _ _ y hy hple
          rw [hOldPos] at hple
          have hy' : y ∈ l ++ r := by rw [hlr]; exact hy
          rcases List.mem_append.mp hy' with hyl' | hyr
          · obtain ⟨j, hj⟩ := List.mem_iff_getElem?.mp hyl'
            have hjl : j < l.length := (List.getElem?_eq_some.mp hj).1
            have hj' : (l ++ r)[j]? = some y := by
              rw [List.getElem?_append_left hjl]
              exact hj
            have hfp : getQueuedSessionPos
                { setInQueueBySid w x false with m_QueuedSessions := hd :: tl }
                y = 1 + j := by
              show queuePosFrom y (hd :: tl) 1 = 1 + j
              rw [← hlr]
              exact queuePosFrom_get y (l ++ r) j 1 hndlr hj'
            rw [hfp] at hple
            exact absurd hple (by omega)
          · obtain ⟨i, hi⟩ := List.mem_iff_getElem?.mp hyr
            have hyi : y ∈ r := hyr
            have hynl : y ∉ l := by
              intro hym
              have hdisj := (List.nodup_append.mp hnd).2.2
              exact hdisj hym (List.mem_cons_of_mem x hyi)
            have hndr : r.Nodup :=
              (List.nodup_cons.mp (List.nodup_append.mp hnd).2.1).2
            have hfp : getQueuedSessionPos
                { setInQueueBySid w x false with m_QueuedSessions := hd :: tl }
                y = 1 + l.length + i := by
              show queuePosFrom y (hd :: tl) 1 = 1 + l.length + i
              rw [← hlr, queuePosFrom_append y l r hynl 1,
                queuePosFrom_get y r i (1 + l.length) hndr hi]
            rw [hfp]
            have he : 1 + l.length + i = l.length + 1 + i := by omega
            rw [he]
            exact sendPositions_covers r i (l.length + 1) y hi
  | none =>
    have hx : x ∉ w.m_QueuedSessions := (splitAtSid_none _ _).mp hsplit
    have herase : w.m_QueuedSessions.erase x = w.m_QueuedSessions :=
      List.erase_of_not_mem hx
    have hsess : (if getActiveSessionCount w ≠ 0 then getActiveSessionCount w - 1
        else getActiveSessionCount w) = getActiveSessionCount w - 1 := by
      split_ifs with h <;> omega
    have hfree : releaseFreesCapacity w x ↔
        (w.m_playerLimit = 0 ∨
          ((getActiveSessionCount w - 1 : Nat) : Int) < w.m_playerLimit) := by
      unfold releaseFreesCapacity
      rw [if_neg hx]
    rw [removeQueuedSession_notfound w x hsplit, herase]
    refine ⟨?_, fun hmem => absurd hmem hx⟩
    cases hlq : w.m_QueuedSessions with
    | nil =>
      rintro ⟨-, hne⟩
      exact absurd rfl hne
    | cons hd tl =>
      have hndtl : tl.Nodup := by
        have hn := hWF.qNodup
        rw [hlq] at hn
        exact (List.nodup_cons.mp hn).2
      by_cases hcap : w.m_playerLimit = 0 ∨
          (((if getActiveSessionCount w ≠ 0 then getActiveSessionCount w - 1
             else getActiveSessionCount w : Nat)) : Int) < w.m_playerLimit
      · rw [promoteAndResend_cons_pos w _ [] 0 false hd tl hlq hcap]
        intro _ y hy
        obtain ⟨i, hi⟩ := List.mem_iff_getElem?.mp hy
        have hfp : getQueuedSessionPos
            { setInQueueBySid w hd false with m_QueuedSessions := tl } y =
            1 + i := by
          show queuePosFrom y tl 1 = 1 + i
          exact queuePosFrom_get y tl i 1 hndtl hi
        rw [hfp]
        exact List.mem_cons_of_mem _ (sendPositions_covers tl i 1 y hi)
      · rw [promoteAndResend_cons_neg w _ [] 0 false hd tl hlq hcap]
        rintro ⟨hf, -⟩
        rw [hsess] at hcap
        exact absurd (hfree.mp hf) hcap

/-- C3: releasing a session removes it from the wait-queue exactly when it
was queued (the return value reporting that), clears its queued-flag, and
— when the release frees capacity and the queue is non-empty — promotes
exactly one session, the queue head, signalled with position 0; every
remaining queued session from the affected point onward (all of them
after a promotion, those at or past the removed position otherwise) is
re-sent its current 1-based position in the final queue, and every
position-update packet sent carries a current position, never a stale
one.  Scenario B: releasing `a` from the full capacity-2 server promotes
`c` (the longest queued) and empties the queue. -/
theorem c3_release_fifo_promotion :
    (∀ (w : World) (x : Nat), WF w →
      (((removeQueuedSession w x).2.2 = true ↔ x ∈ w.m_QueuedSessions) ∧
       x ∉ (removeQueuedSession w x).1.m_QueuedSessions ∧
       (x ∈ w.m_QueuedSessions →
         ∀ t ∈ (removeQueuedSession w x).1.m_sessions, t.sid = x →
           t.inQueue = false) ∧
       ((releaseFreesCapacity w x ∧ w.m_QueuedSessions.erase x ≠ []) →
         ∃ hd tl, w.m_QueuedSessions.erase x = hd :: tl ∧
           (removeQueuedSession w x).1.m_QueuedSessions = tl ∧
           (removeQueuedSession w x).2.1.countP isPromoSignal = 1 ∧
           Event.authWaitQue hd 0 ∈ (removeQueuedSession w x).2.1) ∧
       (¬(releaseFreesCapacity w x ∧ w.m_QueuedSessions.erase x ≠ []) →
         (removeQueuedSession w x).1.m_QueuedSessions =
           w.m_QueuedSessions.erase x ∧
         (removeQueuedSession w x).2.1.countP isPromoSignal = 0) ∧
       (∀ (y p : Nat), Event.authWaitQue y p ∈ (removeQueuedSession w x).2.1 →
         1 ≤ p → getQueuedSessionPos (removeQueuedSession w x).1 y = p) ∧
       ((releaseFreesCapacity w x ∧ w.m_QueuedSessions.erase x ≠ []) →
         ∀ y ∈ (removeQueuedSession w x).1.m_QueuedSessions,
           Event.authWaitQue y
               (getQueuedSessionPos (removeQueuedSession w x).1 y) ∈
             (removeQueuedSession w x).2.1) ∧
       (x ∈ w.m_QueuedSessions →
         ¬(releaseFreesCapacity w x ∧ w.m_QueuedSessions.erase x ≠ []) →
         ∀ y ∈ (removeQueuedSession w x).1.m_QueuedSessions,
           getQueuedSessionPos w x ≤
             getQueuedSessionPos (removeQueuedSession w x).1 y →
           Event.authWaitQue y
               (getQueuedSessionPos (removeQueuedSession w x).1 y) ∈
             (removeQueuedSession w x).2.1))) ∧
    ((sessionExpire wA 101).2 = [Event.authWaitQue 3 0] ∧
     (sessionExpire wA 101).1.m_QueuedSessions = [] ∧
     (removeQueuedSession wA 1).2.2 = false ∧
     (removeQueuedSession wA 3).2.2 = true) := by
  refine ⟨?_, by decide⟩
  intro w x hWF
  exact ⟨rq_found w x, rq_not_mem w x hWF.qNodup, rq_inQueue_false w x,
    (rq_promotion w x).1, (rq_promotion w x).2, rq_positions w x hWF,
    (rq_coverage w x hWF).1, (rq_coverage w x hWF).2⟩

/-- Capacity-1 world with one active session and two queued (queue `[2, 3]`). -/
def wQ : World :=
  (addSession_ (addSession_ (addSession_ (setPlayerLimit World.init 1) sa).1
    sb).1 sc).1

/-- Witness for C3 on concrete states: releasing the queued session from
the scenario-A end state, and — on a two-element queue with no promotion
possible — the remaining queued session being re-sent its current
position. -/
theorem c3_release_fifo_promotion_witness :
    ((removeQueuedSession wA 3).2.2 = true ↔ 3 ∈ wA.m_QueuedSessions) ∧
    3 ∉ (removeQueuedSession wA 3).1.m_QueuedSessions ∧
    Event.authWaitQue 3 1 ∈ (removeQueuedSession wQ 2).2.1 := by
  have h := c3_release_fifo_promotion.1 wA 3
    ⟨by decide, by decide, by decide, by decide⟩
  have hq := c3_release_fifo_promotion.1 wQ 2
    ⟨by decide, by decide, by decide, by decide⟩
  refine ⟨h.1, h.2.1, ?_⟩
  have hc := hq.2.2.2.2.2.2.2 (by decide) (by decide) 3 (by decide) (by decide)
  have he : getQueuedSessionPos (removeQueuedSession wQ 2).1 3 = 1 := by decide
  rw [he] at hc
  exact hc

lemma countP_acc_zero (a : Nat) :
    ∀ m : List WorldSession, a ∉ m.map (fun t => t.accountId) →
      m.countP (fun t => t.accountId = a) = 0
  | [], _ => rfl
  | t :: ts, h => by
    rw [List.map_cons, List.mem_cons, not_or] at h
    rw [List.countP_cons]
    have ht : ¬ t.accountId = a := fun e => h.1 e.symm
    simp [ht, countP_acc_zero a ts h.2]

lemma countP_acc_le_one (a : Nat) :
    ∀ m : List WorldSession, (m.map (fun t => t.accountId)).Nodup →
      m.countP (fun t => t.accountId = a) ≤ 1
  | [], _ => by simp
  | t :: ts, h => by
    rw [List.map_cons, List.nodup_cons] at h
    rw [List.countP_cons]
    by_cases ht : t.accountId = a
    · have hz : ts.countP (fun t => t.accountId = a) = 0 :=
        countP_acc_zero a ts (ht ▸ h.1)
      simp [ht, hz]
    · have hc : (decide (t.accountId = a)) = false := by simp [ht]
      rw [hc]
      simpa using countP_acc_le_one a ts h.2

/-- Admitting a fresh session for an account whose old (non-loading)
session is present kicks the old one and removes its object from the
directory. -/
lemma addSession_replaces_old (w : World) (s old : WorldSession) (hWF : WF w)
    (hfind : w.findByAccount s.accountId = some old)
    (hload : old.playerLoading = false) (hne : old.sid ≠ s.sid) :
    Event.kick old.sid ∈ (addSession_ w s).2 ∧
    old.sid ∉ sids (addSession_ w s).1 := by
  have hrs : removeSession w s.accountId = ([Event.kick old.sid], true) := by
    simp [removeSession, hfind, hload]
  have hred : addSession_ w s =
      finishAdd (removeQueuedSession w old.sid).1 s
        (!(removeQueuedSession w old.sid).2.2)
        ([Event.kick old.sid] ++ (removeQueuedSession w old.sid).2.1) := by
    simp [addSession_, hrs, hfind]
  rw [hred]
  constructor
  · obtain ⟨e, hev⟩ := finishAdd_events (removeQueuedSession w old.sid).1 s
      (!(removeQueuedSession w old.sid).2.2)
      ([Event.kick old.sid] ++ (removeQueuedSession w old.sid).2.1)
    rw [hev]
    exact List.mem_append_left _
      (List.mem_append_left _ (List.mem_cons_self _ _))
  · obtain ⟨f, hf, hmapf⟩ := rq_find w old.sid s.accountId
    have hfind1 : (removeQueuedSession w old.sid).1.m_sessions.find?
        (fun t => t.accountId = s.accountId) = some (f old) := by
      have h1 : (removeQueuedSession w old.sid).1.findByAccount s.accountId =
          some (f old) := by
        rw [hmapf, hfind]
        rfl
      exact h1
    have hsidN : ((removeQueuedSession w old.sid).1.m_sessions.map
        (fun t => t.sid)).Nodup := (WF_removeQueuedSession w old.sid hWF).sidNodup
    have hnm : old.sid ∉
        (mapInsert (removeQueuedSession w old.sid).1.m_sessions s).map
          (fun t => t.sid) := by
      have h2 := old_sid_not_mem_mapInsert s (f old)
        (removeQueuedSession w old.sid).1.m_sessions hsidN hfind1
        (by rw [(hf old).1]; exact hne)
      rw [(hf old).1] at h2
      exact h2
    rcases finishAdd_spec (removeQueuedSession w old.sid).1 s
        (!(removeQueuedSession w old.sid).2.2)
        ([Event.kick old.sid] ++ (removeQueuedSession w old.sid).2.1) with
      ⟨hs, -⟩ | ⟨hs, -⟩
    · show old.sid ∉ (finishAdd _ s _ _).1.m_sessions.map (fun t => t.sid)
      rw [hs]
      exact hnm
    · show old.sid ∉ (finishAdd _ s _ _).1.m_sessions.map (fun t => t.sid)
      rw [hs, map_sid_of_fieldPres (fun t => (sessPatch_fields s.sid true t).1)]
      exact hnm

/-- C1: in every reachable state the session directory holds at most one
session per account identity (queued sessions included — the wait-queue
only references directory entries); and admitting a new session for an
account whose old non-loading session is present first kicks and removes
the old session object. -/
theorem c1_one_session_per_account (w : World) (hr : Reachable w) :
    (∀ a : Nat, w.m_sessions.countP (fun t => t.accountId = a) ≤ 1) ∧
    (∀ q ∈ w.m_QueuedSessions, q ∈ sids w) ∧
    (∀ (s old : WorldSession), w.findByAccount s.accountId = some old →
      old.playerLoading = false → old.sid ≠ s.sid →
      Event.kick old.sid ∈ (addSession_ w s).2 ∧
      old.sid ∉ sids (addSession_ w s).1) := by
  have hWF := reachable_WF w hr
  refine ⟨?_, hWF.qSub, ?_⟩
  · intro a
    exact countP_acc_le_one a w.m_sessions hWF.accNodup
  · intro s old hfind hload hne
    exact addSession_replaces_old w s old hWF hfind hload hne

/-- Witness for C1 at the reachable scenario-A end state: account 103 has
one session, and a reconnect for it kicks and removes the old object. -/
theorem c1_one_session_per_account_witness :
    wA.m_sessions.countP (fun t => t.accountId = 103) ≤ 1 ∧
    Event.kick 3 ∈ (addSession_ wA ⟨9, 103, 0, false, false⟩).2 ∧
    3 ∉ sids (addSession_ wA ⟨9, 103, 0, false, false⟩).1 := by
  have hr : Reachable wA :=
    Reachable.add _ sc
      (Reachable.add _ sb
        (Reachable.add _ sa
          (Reachable.setLimit World.init 2 Reachable.init)
          (by decide))
        (by decide))
      (by decide)
  have h := c1_one_session_per_account wA hr
  have h2 := h.2.2 ⟨9, 103, 0, false, false⟩ ⟨3, 103, 0, false, true⟩
    (by decide) rfl (by decide)
  exact ⟨h.1 103, h2.1, h2.2⟩

end JingdianWorld
